import Mathlib

/-!
Verification of the LabConstrictor repository-initializer (`app.py`).

Python strings are embedded as `List Char`; every text-level helper of the
program (`str.splitlines`, `str.lstrip`, `str.strip`, `"\n".join`) is given
an explicit executable model below, faithful to CPython's semantics for the
character classes the functions use.
-/

/-- Characters Python's `str.splitlines` treats as line boundaries
(`\r\n` is additionally consumed as a single boundary). -/
def isLineBreak (c : Char) : Bool :=
  c = '\n' || c = '\r' || c = '\x0b' || c = '\x0c' ||
  c = '\x1c' || c = '\x1d' || c = '\x1e' || c = '\x85' ||
  c = '\u2028' || c = '\u2029'

/-- Characters Python's `str.lstrip()` / `str.strip()` remove, i.e. the
characters for which `str.isspace()` holds. -/
def pyIsSpace (c : Char) : Bool :=
  c = ' ' || c = '\t' || c = '\n' || c = '\r' || c = '\x0b' || c = '\x0c' ||
  c = '\x1c' || c = '\x1d' || c = '\x1e' || c = '\x1f' || c = '\x85' ||
  c = '\xa0' || c = '\u1680' ||
  (('\u2000' : Char) ≤ c && c ≤ ('\u200a' : Char)) ||
  c = '\u2028' || c = '\u2029' || c = '\u202f' || c = '\u205f' || c = '\u3000'

/-- Python `text.splitlines()` (without keepends) over a character list. -/
def pySplitlines : List Char → List (List Char)
  | [] => []
  | [c] => if isLineBreak c then [[]] else [[c]]
  | c :: d :: rest =>
    if c = '\r' ∧ d = '\n' then [] :: pySplitlines rest
    else if isLineBreak c then [] :: pySplitlines (d :: rest)
    else
      match pySplitlines (d :: rest) with
      | [] => [[c]]
      | l :: ls => (c :: l) :: ls

/-- Python `line.lstrip()`. -/
def pyLstrip (s : List Char) : List Char := s.dropWhile pyIsSpace

/-- Python `s.strip()`: whitespace removed from both ends. -/
def pyStrip (s : List Char) : List Char :=
  ((s.dropWhile pyIsSpace).reverse.dropWhile pyIsSpace).reverse

/-- Python `"\n".join(lines)`. -/
def joinNl : List (List Char) → List Char
  | [] => []
  | [l] => l
  | l :: ls => l ++ '\n' :: joinNl ls

/-- A line "matches" a key when its `lstrip()`-ped content starts with
`"<key>:"` — the test used by both `capture_yaml_key_lines` and
`restore_yaml_duplicate_keys`. -/
def lineMatches (kp line : List Char) : Bool :=
  List.isPrefixOf kp (pyLstrip line)

/-- `app.py` `capture_yaml_key_lines`: all lines of `yamlText` whose trimmed
content starts with `"<key>:"`, each re-assembled as original indentation
followed by the stripped remainder. -/
def capture_yaml_key_lines (yamlText key : List Char) : List (List Char) :=
  (pySplitlines yamlText).filterMap fun line =>
    if List.isPrefixOf (key ++ [':']) (pyLstrip line) then
      some (line.take (line.length - (pyLstrip line).length) ++ pyLstrip line)
    else none

/-- The line loop of `restore_yaml_duplicate_keys`: every line matching the
key is dropped, the preserved block is inserted at the first such line, and
the block is appended at the end if no line matched (`inserted` is the loop
flag). -/
def spliceLines (kp : List Char) (preserved : List (List Char)) :
    List (List Char) → Bool → List (List Char)
  | [], inserted => if inserted then [] else preserved
  | line :: rest, inserted =>
    if lineMatches kp line then
      if inserted then spliceLines kp preserved rest true
      else preserved ++ spliceLines kp preserved rest true
    else line :: spliceLines kp preserved rest inserted

/-- `app.py` `restore_yaml_duplicate_keys`. -/
def restore_yaml_duplicate_keys (serialized key : List Char)
    (preserved : List (List Char)) : List Char :=
  if preserved = [] then serialized
  else
    let outLines := spliceLines (key ++ [':']) preserved (pySplitlines serialized) false
    let body := joinNl outLines
    if serialized.getLast? = some '\n' then body ++ ['\n'] else body

/-- The lines of `text` whose trimmed content starts with `"<key>:"` (the
spec's notion of "a `<key>` line"). -/
def matchingLines (text key : List Char) : List (List Char) :=
  (pySplitlines text).filter (lineMatches (key ++ [':']))

def postInstallKey : List Char := "post_install".data

def preUninstallKey : List Char := "pre_uninstall".data

/-- The text-level part of the construct.yaml patch in `initialize_project`:
capture the `post_install` and `pre_uninstall` lines from the original text,
then re-splice them into the serialized text.  The middle of the pipeline
(`yaml.safe_load`, image-key removal, extra-files merge, `yaml.dump`) only
determines `serializedText`, which is therefore taken as an arbitrary input,
so theorems about this function cover every possible parser/serializer
behaviour. -/
def patchPipelineText (origText serializedText : List Char) : List Char :=
  let post_install_lines := capture_yaml_key_lines origText postInstallKey
  let pre_uninstall_lines := capture_yaml_key_lines origText preUninstallKey
  restore_yaml_duplicate_keys
    (restore_yaml_duplicate_keys serializedText postInstallKey post_install_lines)
    preUninstallKey pre_uninstall_lines

/-! ### Lemmas about the text-splitting primitives -/

/-- A list of characters containing no line boundary. -/
def breakFree (l : List Char) : Prop := ∀ c ∈ l, isLineBreak c = false

theorem pySplitlines_cons_cons (c d : Char) (t : List Char) :
    pySplitlines (c :: d :: t) =
      if c = '\r' ∧ d = '\n' then [] :: pySplitlines t
      else if isLineBreak c then [] :: pySplitlines (d :: t)
      else
        match pySplitlines (d :: t) with
        | [] => [[c]]
        | l :: ls => (c :: l) :: ls := by
  rw [pySplitlines]

theorem pySplitlines_nonbreak (c : Char) (t : List Char) (h : isLineBreak c = false) :
    pySplitlines (c :: t) =
      match pySplitlines t with
      | [] => [[c]]
      | l :: ls => (c :: l) :: ls := by
  have hr : c ≠ '\r' := by
    intro hc; subst hc; simp [isLineBreak] at h
  cases t with
  | nil => simp [pySplitlines, h]
  | cons d t' =>
    rw [pySplitlines_cons_cons]
    simp only [h, if_false]
    rw [if_neg]
    · rfl
    · exact fun hc => hr hc.1

theorem pySplitlines_nl_cons (t : List Char) :
    pySplitlines ('\n' :: t) = [] :: pySplitlines t := by
  cases t with
  | nil => simp [pySplitlines, isLineBreak]
  | cons d t' =>
    rw [pySplitlines_cons_cons, if_neg, if_pos (by decide)]
    intro hc
    exact absurd hc.1 (by decide)

theorem pySplitlines_breakFree (s : List Char) : ∀ l ∈ pySplitlines s, breakFree l := by
  induction s using pySplitlines.induct with
  | case1 => simp [pySplitlines]
  | case2 c hb =>
    simp only [pySplitlines, if_pos hb]
    intro l hl c' hc'
    simp at hl
    subst hl
    simp at hc'
  | case3 c hb =>
    simp only [pySplitlines, if_neg hb]
    intro l hl c' hc'
    simp at hl
    subst hl
    simp at hc'
    subst hc'
    simpa using hb
  | case4 c d t hcd ih =>
    rw [pySplitlines_cons_cons, if_pos hcd]
    intro l hl
    rcases List.mem_cons.mp hl with h | h
    · subst h; intro c' hc'; simp at hc'
    · exact ih l h
  | case5 c d t hcd hb ih =>
    rw [pySplitlines_cons_cons, if_neg hcd, if_pos hb]
    intro l hl
    rcases List.mem_cons.mp hl with h | h
    · subst h; intro c' hc'; simp at hc'
    · exact ih l h
  | case6 c d t hcd hb hsp ih =>
    rw [pySplitlines_cons_cons, if_neg hcd, if_neg hb, hsp]
    intro l hl c' hc'
    simp at hl
    subst hl
    simp at hc'
    subst hc'
    simpa using hb
  | case7 c d t hcd hb l0 ls0 hsp ih =>
    rw [pySplitlines_cons_cons, if_neg hcd, if_neg hb, hsp]
    intro l hl
    rcases List.mem_cons.mp hl with h | h
    · subst h
      intro c' hc'
      rcases List.mem_cons.mp hc' with h' | h'
      · subst h'; simpa using hb
      · exact ih l0 (by rw [hsp]; exact List.mem_cons_self _ _) c' h'
    · exact ih l (by rw [hsp]; exact List.mem_cons_of_mem _ h)

theorem pySplitlines_append_nl (a : List Char) (t : List Char) (ha : breakFree a) :
    pySplitlines (a ++ '\n' :: t) = a :: pySplitlines t := by
  induction a with
  | nil => simpa using pySplitlines_nl_cons t
  | cons c a' ih =>
    have hc : isLineBreak c = false := ha c (List.mem_cons_self _ _)
    have ha' : breakFree a' := fun x hx => ha x (List.mem_cons_of_mem _ hx)
    rw [List.cons_append, pySplitlines_nonbreak c _ hc, ih ha']

theorem pySplitlines_of_breakFree (a : List Char) (ha : breakFree a) :
    pySplitlines a = if a = [] then [] else [a] := by
  induction a with
  | nil => simp [pySplitlines]
  | cons c a' ih =>
    have hc : isLineBreak c = false := ha c (List.mem_cons_self _ _)
    have ha' : breakFree a' := fun x hx => ha x (List.mem_cons_of_mem _ hx)
    rw [pySplitlines_nonbreak c a' hc, ih ha']
    by_cases h : a' = []
    · subst h; simp
    · simp [h]

theorem lineMatches_nil (kp : List Char) (h : kp ≠ []) : lineMatches kp [] = false := by
  cases kp with
  | nil => exact absurd rfl h
  | cons c t => simp [lineMatches, pyLstrip, List.isPrefixOf]

theorem filter_pySplitlines_joinNl (kp : List Char) (hkp : kp ≠ []) :
    ∀ (ls : List (List Char)), (∀ l ∈ ls, breakFree l) →
      (pySplitlines (joinNl ls)).filter (lineMatches kp) = ls.filter (lineMatches kp)
  | [], _ => by simp [joinNl, pySplitlines]
  | [a], h => by
    rw [joinNl, pySplitlines_of_breakFree a (h a (by simp))]
    by_cases ha : a = []
    · subst ha
      simp [lineMatches_nil kp hkp]
    · simp [ha]
  | a :: b :: t, h => by
    have hj : joinNl (a :: b :: t) = a ++ '\n' :: joinNl (b :: t) := rfl
    rw [hj, pySplitlines_append_nl a _ (h a (by simp))]
    rw [List.filter_cons, List.filter_cons,
      filter_pySplitlines_joinNl kp hkp (b :: t) (fun l hl => h l (List.mem_cons_of_mem _ hl))]

theorem filter_pySplitlines_joinNl_nl (kp : List Char) (hkp : kp ≠ []) :
    ∀ (ls : List (List Char)), (∀ l ∈ ls, breakFree l) →
      (pySplitlines (joinNl ls ++ ['\n'])).filter (lineMatches kp) = ls.filter (lineMatches kp)
  | [], _ => by
    rw [joinNl]
    simp only [List.nil_append]
    rw [pySplitlines_nl_cons]
    simp [pySplitlines, lineMatches_nil kp hkp]
  | [a], h => by
    rw [joinNl]
    have h1 : a ++ ['\n'] = a ++ '\n' :: ([] : List Char) := rfl
    rw [h1, pySplitlines_append_nl a _ (h a (by simp))]
    simp [pySplitlines]
  | a :: b :: t, h => by
    have hj : joinNl (a :: b :: t) = a ++ '\n' :: joinNl (b :: t) := rfl
    rw [hj, List.append_assoc, List.cons_append]
    rw [pySplitlines_append_nl a _ (h a (by simp))]
    rw [List.filter_cons, List.filter_cons,
      filter_pySplitlines_joinNl_nl kp hkp (b :: t) (fun l hl => h l (List.mem_cons_of_mem _ hl))]

/-! ### Lemmas about the splice loop -/

theorem spliceLines_inserted (kp : List Char) (pres : List (List Char)) :
    ∀ lines, spliceLines kp pres lines true
      = lines.filter (fun l => !(lineMatches kp l))
  | [] => by simp [spliceLines]
  | line :: rest => by
    rw [spliceLines, List.filter_cons]
    by_cases h : lineMatches kp line
    · simp [h, spliceLines_inserted kp pres rest]
    · simp [h, spliceLines_inserted kp pres rest]

theorem filter_spliceLines_self (kp : List Char) (pres : List (List Char))
    (hp : ∀ l ∈ pres, lineMatches kp l = true) :
    ∀ lines, (spliceLines kp pres lines false).filter (lineMatches kp) = pres
  | [] => by
    rw [spliceLines]
    simp only [if_neg (Bool.false_ne_true)]
    exact List.filter_eq_self.mpr hp
  | line :: rest => by
    rw [spliceLines]
    by_cases h : lineMatches kp line
    · rw [if_pos h, if_neg (Bool.false_ne_true), List.filter_append,
        spliceLines_inserted kp pres rest, List.filter_filter]
      rw [List.filter_eq_self.mpr hp]
      have hz : ∀ l ∈ rest, (lineMatches kp l && !lineMatches kp l) = false := by
        intro l _
        cases lineMatches kp l <;> rfl
      rw [List.filter_congr hz]
      simp
    · rw [if_neg h, List.filter_cons]
      simp only [h]
      simpa using filter_spliceLines_self kp pres hp rest

theorem filter_spliceLines_other (kp kp2 : List Char) (pres : List (List Char))
    (h1 : ∀ l ∈ pres, lineMatches kp2 l = false)
    (h2 : ∀ l, lineMatches kp l = true → lineMatches kp2 l = false) :
    ∀ lines b, (spliceLines kp pres lines b).filter (lineMatches kp2)
      = lines.filter (lineMatches kp2)
  | [], b => by
    rw [spliceLines]
    cases b
    · simp only [if_neg (Bool.false_ne_true)]
      simp [List.filter_eq_nil_iff]
      intro l hl
      simp [h1 l hl]
    · simp
  | line :: rest, b => by
    rw [spliceLines]
    by_cases h : lineMatches kp line
    · have hline : lineMatches kp2 line = false := h2 line h
      rw [if_pos h, List.filter_cons]
      simp only [hline]
      cases b
      · rw [if_neg (Bool.false_ne_true), List.filter_append]
        rw [List.filter_eq_nil_iff.mpr (by intro l hl; simp [h1 l hl])]
        rw [List.nil_append]
        simpa using filter_spliceLines_other kp kp2 pres h1 h2 rest true
      · simpa using filter_spliceLines_other kp kp2 pres h1 h2 rest true
    · rw [if_neg h, List.filter_cons, List.filter_cons]
      rw [filter_spliceLines_other kp kp2 pres h1 h2 rest b]

theorem mem_spliceLines (kp : List Char) (pres : List (List Char)) :
    ∀ lines b l, l ∈ spliceLines kp pres lines b → l ∈ lines ∨ l ∈ pres
  | [], b, l => by
    rw [spliceLines]
    cases b
    · simp only [if_neg (Bool.false_ne_true)]
      intro h
      exact Or.inr h
    · simp
  | line :: rest, b, l => by
    rw [spliceLines]
    by_cases h : lineMatches kp line
    · rw [if_pos h]
      cases b
      · rw [if_neg (Bool.false_ne_true)]
        intro hmem
        rcases List.mem_append.mp hmem with hm | hm
        · exact Or.inr hm
        · rcases mem_spliceLines kp pres rest true l hm with hm' | hm'
          · exact Or.inl (List.mem_cons_of_mem _ hm')
          · exact Or.inr hm'
      · simp only [if_pos rfl]
        intro hmem
        rcases mem_spliceLines kp pres rest true l hmem with hm' | hm'
        · exact Or.inl (List.mem_cons_of_mem _ hm')
        · exact Or.inr hm'
    · rw [if_neg h]
      intro hmem
      rcases List.mem_cons.mp hmem with hm | hm
      · exact Or.inl (hm ▸ List.mem_cons_self _ _)
      · rcases mem_spliceLines kp pres rest b l hm with hm' | hm'
        · exact Or.inl (List.mem_cons_of_mem _ hm')
        · exact Or.inr hm'

/-! ### Capture equals the matching lines -/

theorem indent_append_stripped (l : List Char) :
    l.take (l.length - (pyLstrip l).length) ++ pyLstrip l = l := by
  unfold pyLstrip
  have hlen : (l.takeWhile pyIsSpace).length + (l.dropWhile pyIsSpace).length = l.length := by
    rw [← List.length_append, List.takeWhile_append_dropWhile]
  have h1 : l.length - (l.dropWhile pyIsSpace).length = (l.takeWhile pyIsSpace).length := by
    omega
  rw [h1]
  have hp : l.takeWhile pyIsSpace <+: l := List.takeWhile_prefix pyIsSpace
  have h2 : l.take (l.takeWhile pyIsSpace).length = l.takeWhile pyIsSpace :=
    (List.prefix_iff_eq_take.mp hp).symm
  rw [h2]
  exact List.takeWhile_append_dropWhile pyIsSpace l

theorem capture_eq_matchingLines (t k : List Char) :
    capture_yaml_key_lines t k = matchingLines t k := by
  unfold capture_yaml_key_lines matchingLines
  generalize pySplitlines t = ls
  induction ls with
  | nil => rfl
  | cons a ls ih =>
    by_cases h : List.isPrefixOf (k ++ [':']) (pyLstrip a) = true
    · have hm : lineMatches (k ++ [':']) a = true := h
      rw [List.filterMap_cons_some (by rw [if_pos h]), List.filter_cons, if_pos hm]
      rw [indent_append_stripped a, ih]
    · have hm : ¬ lineMatches (k ++ [':']) a = true := h
      rw [List.filterMap_cons_none (by rw [if_neg h]), List.filter_cons, if_neg hm]
      exact ih

/-! ### The two preserved keys cannot match the same line -/

theorem post_not_pre (l : List Char)
    (h : lineMatches (postInstallKey ++ [':']) l = true) :
    lineMatches (preUninstallKey ++ [':']) l = false := by
  by_contra hne
  have h2 : lineMatches (preUninstallKey ++ [':']) l = true := by
    cases hx : lineMatches (preUninstallKey ++ [':']) l
    · exact absurd hx hne
    · rfl
  have p1 : (postInstallKey ++ [':']) <+: pyLstrip l :=
    List.isPrefixOf_iff_prefix.mp h
  have p2 : (preUninstallKey ++ [':']) <+: pyLstrip l :=
    List.isPrefixOf_iff_prefix.mp h2
  rcases List.prefix_or_prefix_of_prefix p1 p2 with hp | hp
  · have := List.isPrefixOf_iff_prefix.mpr hp
    revert this
    decide
  · have := List.isPrefixOf_iff_prefix.mpr hp
    revert this
    decide

theorem pre_not_post (l : List Char)
    (h : lineMatches (preUninstallKey ++ [':']) l = true) :
    lineMatches (postInstallKey ++ [':']) l = false := by
  cases hx : lineMatches (postInstallKey ++ [':']) l
  · rfl
  · rw [post_not_pre l hx] at h
    exact absurd h (by simp)

theorem matchingLines_restore (s key key2 : List Char) (pres : List (List Char))
    (hpres : pres ≠ []) (hbf : ∀ l ∈ pres, breakFree l) :
    matchingLines (restore_yaml_duplicate_keys s key pres) key2 =
      (spliceLines (key ++ [':']) pres (pySplitlines s) false).filter
        (lineMatches (key2 ++ [':'])) := by
  unfold restore_yaml_duplicate_keys
  rw [if_neg hpres]
  have hkp2 : key2 ++ [':'] ≠ [] := by simp
  have hout : ∀ l ∈ spliceLines (key ++ [':']) pres (pySplitlines s) false, breakFree l := by
    intro l hl
    rcases mem_spliceLines _ _ _ _ _ hl with hm | hm
    · exact pySplitlines_breakFree s l hm
    · exact hbf l hm
  show matchingLines (if s.getLast? = some '\n'
      then joinNl (spliceLines (key ++ [':']) pres (pySplitlines s) false) ++ ['\n']
      else joinNl (spliceLines (key ++ [':']) pres (pySplitlines s) false)) key2 = _
  by_cases hend : s.getLast? = some '\n'
  · rw [if_pos hend]
    exact filter_pySplitlines_joinNl_nl _ hkp2 _ hout
  · rw [if_neg hend]
    exact filter_pySplitlines_joinNl _ hkp2 _ hout

/-- **C1**: for every construct.yaml text with exactly two `post_install`
lines and one `pre_uninstall` line (lines whose trimmed content starts with
the key followed by a colon), the text produced by the patching pipeline —
capture of the duplicate-key lines, then (for any possible output `s` of the
parse / image-key removal / extra-files merge / serialize middle) the
re-splice — again contains exactly two `post_install` lines and one
`pre_uninstall` line, character-for-character identical (indentation
included) to the original ones, in order. -/
theorem construct_yaml_roundtrip (orig s : List Char)
    (hpost : (matchingLines orig postInstallKey).length = 2)
    (hpre : (matchingLines orig preUninstallKey).length = 1) :
    matchingLines (patchPipelineText orig s) postInstallKey
        = matchingLines orig postInstallKey ∧
      matchingLines (patchPipelineText orig s) preUninstallKey
        = matchingLines orig preUninstallKey ∧
      (matchingLines (patchPipelineText orig s) postInstallKey).length = 2 ∧
      (matchingLines (patchPipelineText orig s) preUninstallKey).length = 1 := by
  have hpne : matchingLines orig postInstallKey ≠ [] := by
    intro h0; rw [h0] at hpost; simp at hpost
  have hune : matchingLines orig preUninstallKey ≠ [] := by
    intro h0; rw [h0] at hpre; simp at hpre
  have hpmatch : ∀ l ∈ matchingLines orig postInstallKey,
      lineMatches (postInstallKey ++ [':']) l = true := by
    intro l hl; exact List.of_mem_filter hl
  have humatch : ∀ l ∈ matchingLines orig preUninstallKey,
      lineMatches (preUninstallKey ++ [':']) l = true := by
    intro l hl; exact List.of_mem_filter hl
  have hpbf : ∀ l ∈ matchingLines orig postInstallKey, breakFree l := by
    intro l hl; exact pySplitlines_breakFree orig l (List.mem_of_mem_filter hl)
  have hubf : ∀ l ∈ matchingLines orig preUninstallKey, breakFree l := by
    intro l hl; exact pySplitlines_breakFree orig l (List.mem_of_mem_filter hl)
  have hpipe : patchPipelineText orig s =
      restore_yaml_duplicate_keys
        (restore_yaml_duplicate_keys s postInstallKey (matchingLines orig postInstallKey))
        preUninstallKey (matchingLines orig preUninstallKey) := by
    unfold patchPipelineText
    rw [capture_eq_matchingLines, capture_eq_matchingLines]
  set t1 := restore_yaml_duplicate_keys s postInstallKey (matchingLines orig postInstallKey)
    with ht1
  have ht1_post : matchingLines t1 postInstallKey = matchingLines orig postInstallKey := by
    rw [ht1, matchingLines_restore s postInstallKey postInstallKey _ hpne hpbf]
    exact filter_spliceLines_self (postInstallKey ++ [':']) _ hpmatch (pySplitlines s)
  have hfinal_post : matchingLines (patchPipelineText orig s) postInstallKey
      = matchingLines t1 postInstallKey := by
    rw [hpipe, matchingLines_restore t1 preUninstallKey postInstallKey _ hune hubf]
    exact filter_spliceLines_other (preUninstallKey ++ [':']) (postInstallKey ++ [':'])
      _ (fun l hl => pre_not_post l (humatch l hl)) pre_not_post (pySplitlines t1) false
  have hfinal_pre : matchingLines (patchPipelineText orig s) preUninstallKey
      = matchingLines orig preUninstallKey := by
    rw [hpipe, matchingLines_restore t1 preUninstallKey preUninstallKey _ hune hubf]
    exact filter_spliceLines_self (preUninstallKey ++ [':']) _ humatch (pySplitlines t1)
  refine ⟨?_, hfinal_pre, ?_, ?_⟩
  · rw [hfinal_post, ht1_post]
  · rw [hfinal_post, ht1_post]; exact hpost
  · rw [hfinal_pre]; exact hpre

def roundtripWitnessOrig : List Char :=
  "name: X\npost_install: a.sh\nextra: 1\n  post_install: b.sh\npre_uninstall: c.sh\n".data

def roundtripWitnessSerialized : List Char :=
  "name: X\nextra: 1\npost_install: q\npre_uninstall: r\n".data

theorem construct_yaml_roundtrip_witness :
    (matchingLines roundtripWitnessOrig postInstallKey).length = 2 ∧
      (matchingLines roundtripWitnessOrig preUninstallKey).length = 1 ∧
      (matchingLines (patchPipelineText roundtripWitnessOrig roundtripWitnessSerialized)
          postInstallKey
        = matchingLines roundtripWitnessOrig postInstallKey ∧
      matchingLines (patchPipelineText roundtripWitnessOrig roundtripWitnessSerialized)
          preUninstallKey
        = matchingLines roundtripWitnessOrig preUninstallKey ∧
      (matchingLines (patchPipelineText roundtripWitnessOrig roundtripWitnessSerialized)
          postInstallKey).length = 2 ∧
      (matchingLines (patchPipelineText roundtripWitnessOrig roundtripWitnessSerialized)
          preUninstallKey).length = 1) :=
  ⟨by decide, by decide,
    construct_yaml_roundtrip roundtripWitnessOrig roundtripWitnessSerialized
      (by decide) (by decide)⟩

/-!
### The extra-files merge step of `initialize_project`

`app.py` lines 383-417.  YAML scalars that the merge step touches are
modelled as Lean `String`s (Python's `str()` on a string is the identity;
a non-dict passthrough item is kept opaque as its display string, which is
also what the sort key `(1, str(item))` uses).  A `pathlib.Path` is
modelled by the two attributes the step reads: `str(p)` and `p.name`.
Python's `set` membership coincides with list membership, so the two
lookup sets are kept as the lists of recorded keys.  Python's `list.sort`
is a stable ascending sort; it is modelled by a stable insertion sort,
which produces the same output as every other stable sort for a total
transitive comparison.
-/

/-- The two attributes of a `pathlib.Path` the merge step reads. -/
structure PyPath where
  toStr : String
  name : String
deriving DecidableEq

/-- An element of the parsed `extra_files` list: a mapping (its key/value
pairs in iteration order) or a non-dict item kept as-is. -/
inductive RawItem where
  | dict : List (String × String) → RawItem
  | plain : String → RawItem
deriving DecidableEq

/-- A normalized entry: `{str(src): str(dst)}` or a preserved non-dict item. -/
inductive Entry where
  | pair : String → String → Entry
  | plain : String → Entry
deriving DecidableEq

def Entry.source? : Entry → Option String
  | Entry.pair k _ => some k
  | Entry.plain _ => none

def Entry.dest? : Entry → Option String
  | Entry.pair _ v => some v
  | Entry.plain _ => none

/-- The sources a single item contributes to `existing_sources`. -/
def itemSources : RawItem → List String
  | RawItem.dict prs => prs.map Prod.fst
  | RawItem.plain _ => []

/-- The destinations a single item contributes to `existing_dests`. -/
def itemDests : RawItem → List String
  | RawItem.dict prs => prs.map Prod.snd
  | RawItem.plain _ => []

/-- The normalized entries a single item contributes. -/
def itemNormalized : RawItem → List Entry
  | RawItem.dict prs => prs.map (fun pr => Entry.pair pr.1 pr.2)
  | RawItem.plain s => [Entry.plain s]

/-- The state built by the "Normalize existing entries" loop. -/
structure MergeState where
  existing_sources : List String
  existing_dests : List String
  normalized_items : List Entry
deriving DecidableEq

/-- The first loop of the merge step: one pass over `extra_files`,
appending every dict's key to `existing_sources`, its value to
`existing_dests`, the pair `{str(src): str(dst)}` to `normalized_items`,
and keeping non-dict items in `normalized_items` only. -/
def normalizeExtraFiles (items : List RawItem) : MergeState :=
  { existing_sources := (items.map itemSources).flatten,
    existing_dests := (items.map itemDests).flatten,
    normalized_items := (items.map itemNormalized).flatten }

/-- The candidate loop over `image_mappings = [icon, ico, icns]`: a provided
path is appended (in loop order) iff neither its `str()` nor its computed
destination `f"{project_name}/{src_path.name}"` is in the lookup sets — the
sets are not updated inside this loop, exactly as in the code. -/
def newImageEntries (project_name : String) (st : MergeState) :
    List (Option PyPath) → List Entry
  | [] => []
  | none :: rest => newImageEntries project_name st rest
  | some p :: rest =>
    if p.toStr ∉ st.existing_sources ∧
        (project_name ++ "/" ++ p.name) ∉ st.existing_dests then
      Entry.pair p.toStr (project_name ++ "/" ++ p.name)
        :: newImageEntries project_name st rest
    else newImageEntries project_name st rest

/-- Python's string `<=`: lexicographic comparison of code points. -/
def charListLe : List Char → List Char → Bool
  | [], _ => true
  | _ :: _, [] => false
  | a :: as, b :: bs => if a < b then true else if b < a then false else charListLe as bs

/-- The sort key of `initialize_project.sort_key`, as a comparison:
dicts `(0, key)` sort before non-dicts `(1, str(item))`, and equal tags
compare by the string (Python's code-point lexicographic order). -/
def entryLe : Entry → Entry → Bool
  | Entry.pair k1 _, Entry.pair k2 _ => charListLe k1.data k2.data
  | Entry.pair _ _, Entry.plain _ => true
  | Entry.plain _, Entry.pair _ _ => false
  | Entry.plain s1, Entry.plain s2 => charListLe s1.data s2.data

/-- Stable insertion: the element goes before the first element it is `le`
to, i.e. after every earlier element of equal key. -/
def insertLe {α : Type} (le : α → α → Bool) (a : α) : List α → List α
  | [] => [a]
  | b :: l => if le a b then a :: b :: l else b :: insertLe le a l

/-- Stable ascending sort (model of Python's stable `list.sort(key=...)`). -/
def stableSort {α : Type} (le : α → α → Bool) (l : List α) : List α :=
  l.foldr (insertLe le) []

/-- The whole merge step: normalize the existing entries, append the
non-duplicate image candidates, sort stably by the sort key. -/
def merge_extra_files (project_name : String) (extra_files : List RawItem)
    (image_mappings : List (Option PyPath)) : List Entry :=
  let st := normalizeExtraFiles extra_files
  stableSort entryLe
    (st.normalized_items ++ newImageEntries project_name st image_mappings)

/-- Re-reading a merged list as raw items (each single-key mapping becomes a
one-pair dict), to feed the merge a second time. -/
def Entry.toRaw : Entry → RawItem
  | Entry.pair k v => RawItem.dict [(k, v)]
  | Entry.plain s => RawItem.plain s

/-! ### Properties of the stable sort -/

theorem insertLe_perm {α : Type} (le : α → α → Bool) (a : α) :
    ∀ l : List α, (insertLe le a l).Perm (a :: l)
  | [] => by simp [insertLe]
  | b :: l => by
    rw [insertLe]
    by_cases h : le a b
    · simp [h]
    · simp only [h, if_false]
      exact (List.Perm.cons b (insertLe_perm le a l)).trans (List.Perm.swap a b l)

theorem stableSort_perm {α : Type} (le : α → α → Bool) (l : List α) :
    (stableSort le l).Perm l := by
  induction l with
  | nil => simp [stableSort]
  | cons a l ih =>
    have h1 : stableSort le (a :: l) = insertLe le a (stableSort le l) := rfl
    rw [h1]
    exact (insertLe_perm le a (stableSort le l)).trans (List.Perm.cons a ih)

theorem mem_insertLe {α : Type} (le : α → α → Bool) (a x : α) (l : List α) :
    x ∈ insertLe le a l ↔ x = a ∨ x ∈ l := by
  rw [(insertLe_perm le a l).mem_iff]
  exact List.mem_cons

theorem pairwise_insertLe {α : Type} (le : α → α → Bool)
    (htot : ∀ a b, le a b || le b a)
    (htrans : ∀ a b c, le a b = true → le b c = true → le a c = true) (a : α) :
    ∀ l : List α, l.Pairwise (fun x y => le x y = true) →
      (insertLe le a l).Pairwise (fun x y => le x y = true)
  | [], _ => by simp [insertLe]
  | b :: l, hp => by
    rw [insertLe]
    rcases List.pairwise_cons.mp hp with ⟨hb, hl⟩
    by_cases h : le a b = true
    · rw [if_pos h]
      refine List.pairwise_cons.mpr ⟨?_, hp⟩
      intro y hy
      rcases List.mem_cons.mp hy with rfl | hy'
      · exact h
      · exact htrans a b y h (hb y hy')
    · rw [if_neg h]
      have hba : le b a = true := by
        have h0 := htot a b
        rcases (Bool.or_eq_true _ _).mp h0 with h1 | h1
        · exact absurd h1 h
        · exact h1
      refine List.pairwise_cons.mpr ⟨?_, pairwise_insertLe le htot htrans a l hl⟩
      intro y hy
      rcases (mem_insertLe le a y l).mp hy with rfl | hy'
      · exact hba
      · exact hb y hy'

theorem pairwise_stableSort {α : Type} (le : α → α → Bool)
    (htot : ∀ a b, le a b || le b a)
    (htrans : ∀ a b c, le a b = true → le b c = true → le a c = true)
    (l : List α) :
    (stableSort le l).Pairwise (fun x y => le x y = true) := by
  induction l with
  | nil => simp [stableSort]
  | cons a l ih =>
    have h1 : stableSort le (a :: l) = insertLe le a (stableSort le l) := rfl
    rw [h1]
    exact pairwise_insertLe le htot htrans a _ ih

theorem stableSort_of_pairwise {α : Type} (le : α → α → Bool) :
    ∀ l : List α, l.Pairwise (fun x y => le x y = true) → stableSort le l = l
  | [], _ => rfl
  | a :: l, hp => by
    rcases List.pairwise_cons.mp hp with ⟨ha, hl⟩
    have h1 : stableSort le (a :: l) = insertLe le a (stableSort le l) := rfl
    rw [h1, stableSort_of_pairwise le l hl]
    cases l with
    | nil => rfl
    | cons b t => rw [insertLe, if_pos (ha b (List.mem_cons_self _ _))]

theorem charListLe_total : ∀ a b : List Char, (charListLe a b || charListLe b a) = true
  | [], b => by simp [charListLe]
  | a :: as, [] => by simp [charListLe]
  | a :: as, b :: bs => by
    rw [charListLe, charListLe]
    rcases lt_trichotomy a b with h | h | h
    · simp [h]
    · subst h
      simp only [lt_irrefl, if_false]
      exact charListLe_total as bs
    · simp [h, lt_asymm h]

theorem charListLe_trans :
    ∀ a b c : List Char, charListLe a b = true → charListLe b c = true →
      charListLe a c = true
  | [], _, _, _, _ => rfl
  | a :: as, [], c, h1, _ => by simp [charListLe] at h1
  | a :: as, b :: bs, [], _, h2 => by simp [charListLe] at h2
  | a :: as, b :: bs, c :: cs, h1, h2 => by
    rw [charListLe] at h1 h2 ⊢
    by_cases hab : a < b
    · by_cases hbc : b < c
      · rw [if_pos (lt_trans hab hbc)]
      · by_cases hcb : c < b
        · rw [if_neg hbc, if_pos hcb] at h2
          exact absurd h2 (by simp)
        · have hbc' : b = c := le_antisymm (not_lt.mp hcb) (not_lt.mp hbc)
          subst hbc'
          rw [if_pos hab]
    · by_cases hba : b < a
      · rw [if_neg hab, if_pos hba] at h1
        exact absurd h1 (by simp)
      · have hab' : a = b := le_antisymm (not_lt.mp hba) (not_lt.mp hab)
        subst hab'
        rw [if_neg (lt_irrefl a), if_neg (lt_irrefl a)] at h1
        by_cases hac : a < c
        · rw [if_pos hac]
        · by_cases hca : c < a
          · rw [if_neg hac, if_pos hca] at h2
            exact absurd h2 (by simp)
          · have hac' : a = c := le_antisymm (not_lt.mp hca) (not_lt.mp hac)
            subst hac'
            rw [if_neg (lt_irrefl a), if_neg (lt_irrefl a)] at h2 ⊢
            exact charListLe_trans as bs cs h1 h2

theorem entryLe_total : ∀ a b : Entry, (entryLe a b || entryLe b a) = true
  | Entry.pair k1 v1, Entry.pair k2 v2 => by
    rw [entryLe, entryLe]; exact charListLe_total k1.data k2.data
  | Entry.pair _ _, Entry.plain _ => by rw [entryLe]; simp
  | Entry.plain _, Entry.pair _ _ => by rw [entryLe]; simp [entryLe]
  | Entry.plain s1, Entry.plain s2 => by
    rw [entryLe, entryLe]; exact charListLe_total s1.data s2.data

theorem entryLe_trans :
    ∀ a b c : Entry, entryLe a b = true → entryLe b c = true → entryLe a c = true
  | Entry.pair k1 v1, Entry.pair k2 v2, Entry.pair k3 v3, h1, h2 => by
    rw [entryLe] at h1 h2 ⊢
    exact charListLe_trans k1.data k2.data k3.data h1 h2
  | Entry.pair _ _, _, Entry.plain _, _, _ => by rw [entryLe]
  | Entry.pair _ _, Entry.plain _, Entry.pair _ _, _, h2 => by
    rw [entryLe] at h2; exact absurd h2 (by simp)
  | Entry.plain _, Entry.pair _ _, _, h1, _ => by
    rw [entryLe] at h1; exact absurd h1 (by simp)
  | Entry.plain _, Entry.plain _, Entry.pair _ _, _, h2 => by
    rw [entryLe] at h2; exact absurd h2 (by simp)
  | Entry.plain s1, Entry.plain s2, Entry.plain s3, h1, h2 => by
    rw [entryLe] at h1 h2 ⊢
    exact charListLe_trans s1.data s2.data s3.data h1 h2

theorem stableSort_entryLe_idem (l : List Entry) :
    stableSort entryLe (stableSort entryLe l) = stableSort entryLe l :=
  stableSort_of_pairwise entryLe _ (pairwise_stableSort entryLe entryLe_total entryLe_trans l)

/-! ### The lookup sets record exactly the normalized mapping entries -/

theorem filterMap_source_itemNormalized (it : RawItem) :
    (itemNormalized it).filterMap Entry.source? = itemSources it := by
  cases it with
  | dict prs =>
    induction prs with
    | nil => rfl
    | cons pr prs ih =>
      simp only [itemNormalized, itemSources, List.map_cons, List.filterMap_cons] at *
      rw [ih]
      rfl
  | plain s => rfl

theorem filterMap_dest_itemNormalized (it : RawItem) :
    (itemNormalized it).filterMap Entry.dest? = itemDests it := by
  cases it with
  | dict prs =>
    induction prs with
    | nil => rfl
    | cons pr prs ih =>
      simp only [itemNormalized, itemDests, List.map_cons, List.filterMap_cons] at *
      rw [ih]
      rfl
  | plain s => rfl

theorem normalize_sources_eq (items : List RawItem) :
    (normalizeExtraFiles items).existing_sources
      = (normalizeExtraFiles items).normalized_items.filterMap Entry.source? := by
  unfold normalizeExtraFiles
  simp only [List.filterMap_flatten, List.map_map]
  congr 1
  apply List.map_congr_left
  intro it _
  exact (filterMap_source_itemNormalized it).symm

theorem normalize_dests_eq (items : List RawItem) :
    (normalizeExtraFiles items).existing_dests
      = (normalizeExtraFiles items).normalized_items.filterMap Entry.dest? := by
  unfold normalizeExtraFiles
  simp only [List.filterMap_flatten, List.map_map]
  congr 1
  apply List.map_congr_left
  intro it _
  exact (filterMap_dest_itemNormalized it).symm

/-! ### The appended image entries come one-per-candidate and are fresh -/

theorem newImageEntries_sources_sublist (pn : String) (st : MergeState) :
    ∀ cands, ((newImageEntries pn st cands).filterMap Entry.source?).Sublist
      (cands.filterMap (fun c => c.map PyPath.toStr))
  | [] => by simp [newImageEntries]
  | none :: rest => by
    rw [newImageEntries]
    simpa [List.filterMap_cons] using newImageEntries_sources_sublist pn st rest
  | some p :: rest => by
    rw [newImageEntries]
    by_cases h : p.toStr ∉ st.existing_sources ∧ (pn ++ "/" ++ p.name) ∉ st.existing_dests
    · rw [if_pos h]
      simp only [List.filterMap_cons, Entry.source?, Option.map_some]
      exact List.Sublist.cons₂ p.toStr (newImageEntries_sources_sublist pn st rest)
    · rw [if_neg h]
      simp only [List.filterMap_cons, Option.map_some]
      exact List.Sublist.cons p.toStr (newImageEntries_sources_sublist pn st rest)

theorem newImageEntries_dests_sublist (pn : String) (st : MergeState) :
    ∀ cands, ((newImageEntries pn st cands).filterMap Entry.dest?).Sublist
      (cands.filterMap (fun c => c.map (fun p => pn ++ "/" ++ p.name)))
  | [] => by simp [newImageEntries]
  | none :: rest => by
    rw [newImageEntries]
    simpa [List.filterMap_cons] using newImageEntries_dests_sublist pn st rest
  | some p :: rest => by
    rw [newImageEntries]
    by_cases h : p.toStr ∉ st.existing_sources ∧ (pn ++ "/" ++ p.name) ∉ st.existing_dests
    · rw [if_pos h]
      simp only [List.filterMap_cons, Entry.dest?, Option.map_some]
      exact List.Sublist.cons₂ _ (newImageEntries_dests_sublist pn st rest)
    · rw [if_neg h]
      simp only [List.filterMap_cons, Option.map_some]
      exact List.Sublist.cons _ (newImageEntries_dests_sublist pn st rest)

theorem newImageEntries_sources_fresh (pn : String) (st : MergeState) :
    ∀ cands k, k ∈ (newImageEntries pn st cands).filterMap Entry.source? →
      k ∉ st.existing_sources
  | [], k => by simp [newImageEntries]
  | none :: rest, k => by
    rw [newImageEntries]
    exact newImageEntries_sources_fresh pn st rest k
  | some p :: rest, k => by
    rw [newImageEntries]
    by_cases h : p.toStr ∉ st.existing_sources ∧ (pn ++ "/" ++ p.name) ∉ st.existing_dests
    · rw [if_pos h]
      simp only [List.filterMap_cons, Entry.source?]
      intro hk
      rcases List.mem_cons.mp hk with rfl | hk'
      · exact h.1
      · exact newImageEntries_sources_fresh pn st rest k hk'
    · rw [if_neg h]
      exact newImageEntries_sources_fresh pn st rest k
  
theorem newImageEntries_dests_fresh (pn : String) (st : MergeState) :
    ∀ cands d, d ∈ (newImageEntries pn st cands).filterMap Entry.dest? →
      d ∉ st.existing_dests
  | [], d => by simp [newImageEntries]
  | none :: rest, d => by
    rw [newImageEntries]
    exact newImageEntries_dests_fresh pn st rest d
  | some p :: rest, d => by
    rw [newImageEntries]
    by_cases h : p.toStr ∉ st.existing_sources ∧ (pn ++ "/" ++ p.name) ∉ st.existing_dests
    · rw [if_pos h]
      simp only [List.filterMap_cons, Entry.dest?]
      intro hd
      rcases List.mem_cons.mp hd with rfl | hd'
      · exact h.2
      · exact newImageEntries_dests_fresh pn st rest d hd'
    · rw [if_neg h]
      exact newImageEntries_dests_fresh pn st rest d

theorem sources_toRaw (es : List Entry) :
    (normalizeExtraFiles (es.map Entry.toRaw)).existing_sources
      = es.filterMap Entry.source? := by
  induction es with
  | nil => rfl
  | cons e es ih =>
    cases e with
    | pair k v =>
      simp only [normalizeExtraFiles, List.map_cons, List.flatten_cons,
        List.filterMap_cons] at *
      rw [ih]
      rfl
    | plain s =>
      simp only [normalizeExtraFiles, List.map_cons, List.flatten_cons,
        List.filterMap_cons] at *
      rw [ih]
      rfl

theorem dests_toRaw (es : List Entry) :
    (normalizeExtraFiles (es.map Entry.toRaw)).existing_dests
      = es.filterMap Entry.dest? := by
  induction es with
  | nil => rfl
  | cons e es ih =>
    cases e with
    | pair k v =>
      simp only [normalizeExtraFiles, List.map_cons, List.flatten_cons,
        List.filterMap_cons] at *
      rw [ih]
      rfl
    | plain s =>
      simp only [normalizeExtraFiles, List.map_cons, List.flatten_cons,
        List.filterMap_cons] at *
      rw [ih]
      rfl

theorem normalized_toRaw (es : List Entry) :
    (normalizeExtraFiles (es.map Entry.toRaw)).normalized_items = es := by
  induction es with
  | nil => rfl
  | cons e es ih =>
    cases e with
    | pair k v =>
      simp only [normalizeExtraFiles, List.map_cons, List.flatten_cons] at *
      rw [ih]
      rfl
    | plain s =>
      simp only [normalizeExtraFiles, List.map_cons, List.flatten_cons] at *
      rw [ih]
      rfl

/-- **C2 counterexample**: two existing entries with the same source survive
the merge untouched — the normalization loop records duplicates without
collapsing or rejecting them, so the claim fails for this initial list. -/
theorem merge_extra_files_dup_counterexample :
    merge_extra_files "proj" [RawItem.dict [("a", "x")], RawItem.dict [("a", "y")]] []
        = [Entry.pair "a" "x", Entry.pair "a" "y"] ∧
      ¬ ((merge_extra_files "proj" [RawItem.dict [("a", "x")], RawItem.dict [("a", "y")]]
          []).filterMap Entry.source?).Nodup := by
  constructor
  · decide
  · decide

/-- **C2** (amended): if the *existing* mapping entries already have pairwise
distinct sources and pairwise distinct destinations, and the provided
icon/ico/icns candidates have pairwise distinct `str()` forms and pairwise
distinct computed destinations, then the merged list has no two mapping
entries with the same source and no two with the same destination.  (The
code checks candidates only against the pre-existing lookup sets, so the
claim fails without these distinctness conditions.) -/
theorem merge_extra_files_nodup (pn : String) (items : List RawItem)
    (cands : List (Option PyPath))
    (hs : (normalizeExtraFiles items).existing_sources.Nodup)
    (hd : (normalizeExtraFiles items).existing_dests.Nodup)
    (hcs : (cands.filterMap (fun c => c.map PyPath.toStr)).Nodup)
    (hcd : (cands.filterMap (fun c => c.map (fun p => pn ++ "/" ++ p.name))).Nodup) :
    ((merge_extra_files pn items cands).filterMap Entry.source?).Nodup ∧
      ((merge_extra_files pn items cands).filterMap Entry.dest?).Nodup := by
  have hmerge : merge_extra_files pn items cands
      = stableSort entryLe ((normalizeExtraFiles items).normalized_items
          ++ newImageEntries pn (normalizeExtraFiles items) cands) := rfl
  constructor
  · rw [hmerge,
      (List.Perm.filterMap Entry.source? (stableSort_perm entryLe _)).nodup_iff,
      List.filterMap_append, List.nodup_append]
    refine ⟨?_, ?_, ?_⟩
    · rw [← normalize_sources_eq items]
      exact hs
    · exact List.Nodup.sublist (newImageEntries_sources_sublist pn _ cands) hcs
    · intro k hk1 hk2
      have h1 := newImageEntries_sources_fresh pn _ cands k hk2
      rw [normalize_sources_eq items] at h1
      exact h1 hk1
  · rw [hmerge,
      (List.Perm.filterMap Entry.dest? (stableSort_perm entryLe _)).nodup_iff,
      List.filterMap_append, List.nodup_append]
    refine ⟨?_, ?_, ?_⟩
    · rw [← normalize_dests_eq items]
      exact hd
    · exact List.Nodup.sublist (newImageEntries_dests_sublist pn _ cands) hcd
    · intro k hk1 hk2
      have h1 := newImageEntries_dests_fresh pn _ cands k hk2
      rw [normalize_dests_eq items] at h1
      exact h1 hk1

theorem merge_extra_files_nodup_witness :
    ((normalizeExtraFiles [RawItem.dict [("b", "y")], RawItem.plain "zz"]).existing_sources.Nodup ∧
      (normalizeExtraFiles [RawItem.dict [("b", "y")], RawItem.plain "zz"]).existing_dests.Nodup ∧
      (([some (PyPath.mk "a.png" "a.png"), none].filterMap
        (fun c => c.map PyPath.toStr)).Nodup) ∧
      (([some (PyPath.mk "a.png" "a.png"), none].filterMap
        (fun c => c.map (fun p => "Demo" ++ "/" ++ p.name))).Nodup)) ∧
    (((merge_extra_files "Demo" [RawItem.dict [("b", "y")], RawItem.plain "zz"]
        [some (PyPath.mk "a.png" "a.png"), none]).filterMap Entry.source?).Nodup ∧
      ((merge_extra_files "Demo" [RawItem.dict [("b", "y")], RawItem.plain "zz"]
        [some (PyPath.mk "a.png" "a.png"), none]).filterMap Entry.dest?).Nodup) :=
  ⟨⟨by decide, by decide, by decide, by decide⟩,
    merge_extra_files_nodup "Demo" [RawItem.dict [("b", "y")], RawItem.plain "zz"]
      [some (PyPath.mk "a.png" "a.png"), none]
      (by decide) (by decide) (by decide) (by decide)⟩

theorem pair_mem_newImageEntries (pn : String) (st : MergeState) :
    ∀ cands (p : PyPath), some p ∈ cands →
      p.toStr ∉ st.existing_sources → (pn ++ "/" ++ p.name) ∉ st.existing_dests →
      Entry.pair p.toStr (pn ++ "/" ++ p.name) ∈ newImageEntries pn st cands
  | [], p, hp, _, _ => by simp at hp
  | none :: rest, p, hp, h1, h2 => by
    rw [newImageEntries]
    have hp' : some p ∈ rest := by
      rcases List.mem_cons.mp hp with h | h
      · exact absurd h (by simp)
      · exact h
    exact pair_mem_newImageEntries pn st rest p hp' h1 h2
  | some q :: rest, p, hp, h1, h2 => by
    rw [newImageEntries]
    rcases List.mem_cons.mp hp with h | h
    · have hq : q = p := by injection h.symm
      subst hq
      rw [if_pos ⟨h1, h2⟩]
      exact List.mem_cons_self _ _
    · by_cases hc : q.toStr ∉ st.existing_sources ∧ (pn ++ "/" ++ q.name) ∉ st.existing_dests
      · rw [if_pos hc]
        exact List.mem_cons_of_mem _ (pair_mem_newImageEntries pn st rest p h h1 h2)
      · rw [if_neg hc]
        exact pair_mem_newImageEntries pn st rest p h h1 h2

theorem newImageEntries_eq_nil (pn : String) (st : MergeState) :
    ∀ cands,
      (∀ p : PyPath, some p ∈ cands →
        p.toStr ∈ st.existing_sources ∨ (pn ++ "/" ++ p.name) ∈ st.existing_dests) →
      newImageEntries pn st cands = []
  | [], _ => rfl
  | none :: rest, h => by
    rw [newImageEntries]
    exact newImageEntries_eq_nil pn st rest
      (fun p hp => h p (List.mem_cons_of_mem _ hp))
  | some p :: rest, h => by
    rw [newImageEntries]
    have hp := h p (List.mem_cons_self _ _)
    rw [if_neg (by tauto)]
    exact newImageEntries_eq_nil pn st rest
      (fun q hq => h q (List.mem_cons_of_mem _ hq))

/-- **C3**: the extra-files merge is idempotent — feeding its own output
(re-read as raw single-key mapping items) back through the merge with the
same image candidates returns the same list, for every initial list and
every candidate set. -/
theorem merge_extra_files_idempotent (pn : String) (items : List RawItem)
    (cands : List (Option PyPath)) :
    merge_extra_files pn ((merge_extra_files pn items cands).map Entry.toRaw) cands
      = merge_extra_files pn items cands := by
  set R := merge_extra_files pn items cands with hR
  set st := normalizeExtraFiles items with hst
  have hmerge : R = stableSort entryLe
      (st.normalized_items ++ newImageEntries pn st cands) := rfl
  have hperm : R.Perm (st.normalized_items ++ newImageEntries pn st cands) := by
    rw [hmerge]
    exact stableSort_perm entryLe _
  set st2 := normalizeExtraFiles (R.map Entry.toRaw) with hst2
  have h2src : st2.existing_sources = R.filterMap Entry.source? := sources_toRaw R
  have h2dst : st2.existing_dests = R.filterMap Entry.dest? := dests_toRaw R
  have h2norm : st2.normalized_items = R := normalized_toRaw R
  have hcov : ∀ p : PyPath, some p ∈ cands →
      p.toStr ∈ st2.existing_sources ∨ (pn ++ "/" ++ p.name) ∈ st2.existing_dests := by
    intro p hp
    by_cases hpass : p.toStr ∉ st.existing_sources ∧ (pn ++ "/" ++ p.name) ∉ st.existing_dests
    · left
      rw [h2src]
      have hmem : Entry.pair p.toStr (pn ++ "/" ++ p.name) ∈ newImageEntries pn st cands :=
        pair_mem_newImageEntries pn st cands p hp hpass.1 hpass.2
      have hmemR : Entry.pair p.toStr (pn ++ "/" ++ p.name) ∈ R :=
        hperm.mem_iff.mpr (List.mem_append_right _ hmem)
      exact List.mem_filterMap.mpr ⟨_, hmemR, rfl⟩
    · rcases not_and_or.mp hpass with h | h
      · left
        rw [h2src]
        have h' : p.toStr ∈ st.existing_sources := not_not.mp h
        rw [hst, normalize_sources_eq items, ← hst] at h'
        rcases List.mem_filterMap.mp h' with ⟨e, he, hesrc⟩
        exact List.mem_filterMap.mpr
          ⟨e, hperm.mem_iff.mpr (List.mem_append_left _ he), hesrc⟩
      · right
        rw [h2dst]
        have h' : (pn ++ "/" ++ p.name) ∈ st.existing_dests := not_not.mp h
        rw [hst, normalize_dests_eq items, ← hst] at h'
        rcases List.mem_filterMap.mp h' with ⟨e, he, hedst⟩
        exact List.mem_filterMap.mpr
          ⟨e, hperm.mem_iff.mpr (List.mem_append_left _ he), hedst⟩
  have h3 : merge_extra_files pn (R.map Entry.toRaw) cands
      = stableSort entryLe (st2.normalized_items ++ newImageEntries pn st2 cands) := rfl
  rw [h3, newImageEntries_eq_nil pn st2 cands hcov, List.append_nil, h2norm, hmerge,
    stableSort_entryLe_idem]

/-!
### `create_icns` (`app.py` lines 255-289)

Bytes are natural numbers.  The PIL part of each loop iteration —
`img.resize(size, NEAREST/LANCZOS)` followed by PNG encoding into memory —
is abstracted as a function `enc` from the target size to the encoded
bytes, so every theorem quantified over `enc` covers every input image and
every encoder behaviour.  `struct.pack(">I", n)` requires `n < 2 ** 32`
(it raises `struct.error` otherwise), hence the fit hypotheses.
-/

/-- `struct.pack(">I", n)`: four big-endian bytes. -/
def be32 (n : Nat) : List Nat :=
  [n / 2 ^ 24 % 256, n / 2 ^ 16 % 256, n / 2 ^ 8 % 256, n % 256]

/-- The numeric value of a four-byte big-endian field. -/
def be32val : List Nat → Nat
  | [a, b, c, d] => ((a * 256 + b) * 256 + c) * 256 + d
  | _ => 0

/-- The fixed ordered icon table of `create_icns` (type tag, size). -/
def icon_sizes : List (String × Nat × Nat) :=
  [("icp4", 16, 16), ("icp5", 32, 32), ("icp6", 64, 64), ("ic07", 128, 128),
   ("ic08", 256, 256), ("ic09", 512, 512), ("ic10", 1024, 1024)]

/-- `icon_type.encode("utf-8")` for the pure-ASCII tags. -/
def asciiBytes (s : String) : List Nat := s.data.map Char.toNat

/-- The loop of `create_icns`: `icns_data` starts empty and each iteration
appends `icon_type + pack(">I", len(png_data) + 8) + png_data`. -/
def icns_data (enc : Nat × Nat → List Nat) : List Nat :=
  icon_sizes.foldl (fun acc entry =>
    acc ++ (asciiBytes entry.1 ++ be32 ((enc entry.2).length + 8) ++ enc entry.2)) []

/-- The bytes `create_icns` writes: the header
`b"icns" + pack(">I", len(icns_data) + 8)` followed by `icns_data`. -/
def create_icns_bytes (enc : Nat × Nat → List Nat) : List Nat :=
  (asciiBytes "icns" ++ be32 ((icns_data enc).length + 8)) ++ icns_data enc

/-- Independent decoder for the layout claim: read `n` length-prefixed
blocks, each a 4-byte tag, a 4-byte big-endian length `v`, and `v - 8`
data bytes; return `(tag, v, data)` triples and the remaining bytes. -/
def readBlocks : Nat → List Nat → Option (List (List Nat × Nat × List Nat) × List Nat)
  | 0, bs => some ([], bs)
  | n + 1, bs =>
    if 8 ≤ bs.length ∧ 8 ≤ be32val ((bs.drop 4).take 4) ∧
        be32val ((bs.drop 4).take 4) ≤ bs.length then
      match readBlocks n (bs.drop (be32val ((bs.drop 4).take 4))) with
      | some (blks, rest) =>
        some ((bs.take 4, be32val ((bs.drop 4).take 4),
          (bs.drop 8).take (be32val ((bs.drop 4).take 4) - 8)) :: blks, rest)
      | none => none
    else none

/-- Independent decoder for a whole icns file: the 4-byte magic, the 4-byte
big-endian total, then exactly seven blocks ending exactly at the end of the
file; returns the decoded total and the decoded blocks. -/
def parseIcns (bs : List Nat) : Option (Nat × List (List Nat × Nat × List Nat)) :=
  if bs.take 4 = asciiBytes "icns" then
    match readBlocks 7 (bs.drop 8) with
    | some (blks, []) => some (be32val ((bs.drop 4).take 4), blks)
    | _ => none
  else none

theorem be32val_be32 (n : Nat) (h : n < 2 ^ 32) : be32val (be32 n) = n := by
  rw [be32, be32val]
  omega

theorem be32_length (n : Nat) : (be32 n).length = 4 := rfl

theorem readBlocks_cons (n : Nat) (tag d rest : List Nat)
    (htag : tag.length = 4) (hd : d.length + 8 < 2 ^ 32) :
    readBlocks (n + 1) (tag ++ (be32 (d.length + 8) ++ (d ++ rest)))
      = match readBlocks n rest with
        | some (blks, r) => some ((tag, d.length + 8, d) :: blks, r)
        | none => none := by
  set bs := tag ++ (be32 (d.length + 8) ++ (d ++ rest)) with hbs
  have hlen : bs.length = 4 + (4 + (d.length + rest.length)) := by
    simp [hbs, htag, be32]
    omega
  have hdrop4 : bs.drop 4 = be32 (d.length + 8) ++ (d ++ rest) :=
    List.drop_left' htag
  have hval : be32val ((bs.drop 4).take 4) = d.length + 8 := by
    rw [hdrop4, List.take_left' (be32_length _), be32val_be32 _ hd]
  have hdrop8 : bs.drop 8 = d ++ rest := by
    have h48 : bs.drop 8 = (bs.drop 4).drop 4 := by
      rw [List.drop_drop]
    rw [h48, hdrop4, List.drop_left' (be32_length _)]
  have hdropv : bs.drop (d.length + 8) = rest := by
    have h1 : bs.drop (d.length + 8) = (bs.drop 8).drop d.length := by
      rw [List.drop_drop]
      congr 1
      omega
    rw [h1, hdrop8, List.drop_left' rfl]
  have htake4 : bs.take 4 = tag := List.take_left' htag
  have htaked : (bs.drop 8).take (d.length + 8 - 8) = d := by
    rw [hdrop8, Nat.add_sub_cancel, List.take_left' rfl]
  rw [readBlocks, hval, hdropv, htake4, htaked]
  rw [if_pos ⟨by omega, by omega, by omega⟩]

theorem create_icns_layout (enc : Nat × Nat → List Nat)
    (hfit : ∀ sz : Nat × Nat, (enc sz).length + 8 < 2 ^ 32)
    (htot : (icns_data enc).length + 8 < 2 ^ 32) :
    parseIcns (create_icns_bytes enc)
      = some ((icns_data enc).length + 8,
          icon_sizes.map (fun e => (asciiBytes e.1, (enc e.2).length + 8, enc e.2))) := by
  have h6 : readBlocks 1 (asciiBytes "ic10" ++ (be32 ((enc (1024, 1024)).length + 8) ++ (enc (1024, 1024) ++ ([] : List Nat)))) =
      some ([(asciiBytes "ic10", (enc (1024, 1024)).length + 8, enc (1024, 1024))], []) := by
    rw [readBlocks_cons 0 _ _ _ (by decide) (hfit _)]
    rfl
  have h5 : readBlocks 2 (asciiBytes "ic09" ++ (be32 ((enc (512, 512)).length + 8) ++ (enc (512, 512) ++ (asciiBytes "ic10" ++ (be32 ((enc (1024, 1024)).length + 8) ++ (enc (1024, 1024) ++ ([] : List Nat))))))) =
      some ([(asciiBytes "ic09", (enc (512, 512)).length + 8, enc (512, 512)), (asciiBytes "ic10", (enc (1024, 1024)).length + 8, enc (1024, 1024))], []) := by
    rw [readBlocks_cons 1 _ _ _ (by decide) (hfit _)]
    rw [h6]
  have h4 : readBlocks 3 (asciiBytes "ic08" ++ (be32 ((enc (256, 256)).length + 8) ++ (enc (256, 256) ++ (asciiBytes "ic09" ++ (be32 ((enc (512, 512)).length + 8) ++ (enc (512, 512) ++ (asciiBytes "ic10" ++ (be32 ((enc (1024, 1024)).length + 8) ++ (enc (1024, 1024) ++ ([] : List Nat)))))))))) =
      some ([(asciiBytes "ic08", (enc (256, 256)).length + 8, enc (256, 256)), (asciiBytes "ic09", (enc (512, 512)).length + 8, enc (512, 512)), (asciiBytes "ic10", (enc (1024, 1024)).length + 8, enc (1024, 1024))], []) := by
    rw [readBlocks_cons 2 _ _ _ (by decide) (hfit _)]
    rw [h5]
  have h3 : readBlocks 4 (asciiBytes "ic07" ++ (be32 ((enc (128, 128)).length + 8) ++ (enc (128, 128) ++ (asciiBytes "ic08" ++ (be32 ((enc (256, 256)).length + 8) ++ (enc (256, 256) ++ (asciiBytes "ic09" ++ (be32 ((enc (512, 512)).length + 8) ++ (enc (512, 512) ++ (asciiBytes "ic10" ++ (be32 ((enc (1024, 1024)).length + 8) ++ (enc (1024, 1024) ++ ([] : List Nat))))))))))))) =
      some ([(asciiBytes "ic07", (enc (128, 128)).length + 8, enc (128, 128)), (asciiBytes "ic08", (enc (256, 256)).length + 8, enc (256, 256)), (asciiBytes "ic09", (enc (512, 512)).length + 8, enc (512, 512)), (asciiBytes "ic10", (enc (1024, 1024)).length + 8, enc (1024, 1024))], []) := by
    rw [readBlocks_cons 3 _ _ _ (by decide) (hfit _)]
    rw [h4]
  have h2 : readBlocks 5 (asciiBytes "icp6" ++ (be32 ((enc (64, 64)).length + 8) ++ (enc (64, 64) ++ (asciiBytes "ic07" ++ (be32 ((enc (128, 128)).length + 8) ++ (enc (128, 128) ++ (asciiBytes "ic08" ++ (be32 ((enc (256, 256)).length + 8) ++ (enc (256, 256) ++ (asciiBytes "ic09" ++ (be32 ((enc (512, 512)).length + 8) ++ (enc (512, 512) ++ (asciiBytes "ic10" ++ (be32 ((enc (1024, 1024)).length + 8) ++ (enc (1024, 1024) ++ ([] : List Nat)))))))))))))))) =
      some ([(asciiBytes "icp6", (enc (64, 64)).length + 8, enc (64, 64)), (asciiBytes "ic07", (enc (128, 128)).length + 8, enc (128, 128)), (asciiBytes "ic08", (enc (256, 256)).length + 8, enc (256, 256)), (asciiBytes "ic09", (enc (512, 512)).length + 8, enc (512, 512)), (asciiBytes "ic10", (enc (1024, 1024)).length + 8, enc (1024, 1024))], []) := by
    rw [readBlocks_cons 4 _ _ _ (by decide) (hfit _)]
    rw [h3]
  have h1 : readBlocks 6 (asciiBytes "icp5" ++ (be32 ((enc (32, 32)).length + 8) ++ (enc (32, 32) ++ (asciiBytes "icp6" ++ (be32 ((enc (64, 64)).length + 8) ++ (enc (64, 64) ++ (asciiBytes "ic07" ++ (be32 ((enc (128, 128)).length + 8) ++ (enc (128, 128) ++ (asciiBytes "ic08" ++ (be32 ((enc (256, 256)).length + 8) ++ (enc (256, 256) ++ (asciiBytes "ic09" ++ (be32 ((enc (512, 512)).length + 8) ++ (enc (512, 512) ++ (asciiBytes "ic10" ++ (be32 ((enc (1024, 1024)).length + 8) ++ (enc (1024, 1024) ++ ([] : List Nat))))))))))))))))))) =
      some ([(asciiBytes "icp5", (enc (32, 32)).length + 8, enc (32, 32)), (asciiBytes "icp6", (enc (64, 64)).length + 8, enc (64, 64)), (asciiBytes "ic07", (enc (128, 128)).length + 8, enc (128, 128)), (asciiBytes "ic08", (enc (256, 256)).length + 8, enc (256, 256)), (asciiBytes "ic09", (enc (512, 512)).length + 8, enc (512, 512)), (asciiBytes "ic10", (enc (1024, 1024)).length + 8, enc (1024, 1024))], []) := by
    rw [readBlocks_cons 5 _ _ _ (by decide) (hfit _)]
    rw [h2]
  have h0 : readBlocks 7 (asciiBytes "icp4" ++ (be32 ((enc (16, 16)).length + 8) ++ (enc (16, 16) ++ (asciiBytes "icp5" ++ (be32 ((enc (32, 32)).length + 8) ++ (enc (32, 32) ++ (asciiBytes "icp6" ++ (be32 ((enc (64, 64)).length + 8) ++ (enc (64, 64) ++ (asciiBytes "ic07" ++ (be32 ((enc (128, 128)).length + 8) ++ (enc (128, 128) ++ (asciiBytes "ic08" ++ (be32 ((enc (256, 256)).length + 8) ++ (enc (256, 256) ++ (asciiBytes "ic09" ++ (be32 ((enc (512, 512)).length + 8) ++ (enc (512, 512) ++ (asciiBytes "ic10" ++ (be32 ((enc (1024, 1024)).length + 8) ++ (enc (1024, 1024) ++ ([] : List Nat)))))))))))))))))))))) =
      some ([(asciiBytes "icp4", (enc (16, 16)).length + 8, enc (16, 16)), (asciiBytes "icp5", (enc (32, 32)).length + 8, enc (32, 32)), (asciiBytes "icp6", (enc (64, 64)).length + 8, enc (64, 64)), (asciiBytes "ic07", (enc (128, 128)).length + 8, enc (128, 128)), (asciiBytes "ic08", (enc (256, 256)).length + 8, enc (256, 256)), (asciiBytes "ic09", (enc (512, 512)).length + 8, enc (512, 512)), (asciiBytes "ic10", (enc (1024, 1024)).length + 8, enc (1024, 1024))], []) := by
    rw [readBlocks_cons 6 _ _ _ (by decide) (hfit _)]
    rw [h1]
  have hdata : icns_data enc = asciiBytes "icp4" ++ (be32 ((enc (16, 16)).length + 8) ++ (enc (16, 16) ++ (asciiBytes "icp5" ++ (be32 ((enc (32, 32)).length + 8) ++ (enc (32, 32) ++ (asciiBytes "icp6" ++ (be32 ((enc (64, 64)).length + 8) ++ (enc (64, 64) ++ (asciiBytes "ic07" ++ (be32 ((enc (128, 128)).length + 8) ++ (enc (128, 128) ++ (asciiBytes "ic08" ++ (be32 ((enc (256, 256)).length + 8) ++ (enc (256, 256) ++ (asciiBytes "ic09" ++ (be32 ((enc (512, 512)).length + 8) ++ (enc (512, 512) ++ (asciiBytes "ic10" ++ (be32 ((enc (1024, 1024)).length + 8) ++ (enc (1024, 1024) ++ ([] : List Nat))))))))))))))))))))) := by
    simp [icns_data, icon_sizes, List.append_assoc]
  have htake : (create_icns_bytes enc).take 4 = asciiBytes "icns" := by
    rw [create_icns_bytes, List.append_assoc, List.take_left' (by decide)]
  have hdrop4 : (create_icns_bytes enc).drop 4
      = be32 ((icns_data enc).length + 8) ++ icns_data enc := by
    rw [create_icns_bytes, List.append_assoc, List.drop_left' (by decide)]
  have hhdr : be32val (((create_icns_bytes enc).drop 4).take 4)
      = (icns_data enc).length + 8 := by
    rw [hdrop4, List.take_left' (be32_length _), be32val_be32 _ htot]
  have hdrop8 : (create_icns_bytes enc).drop 8 = icns_data enc := by
    have h48 : (create_icns_bytes enc).drop 8 = ((create_icns_bytes enc).drop 4).drop 4 := by
      rw [List.drop_drop]
    rw [h48, hdrop4, List.drop_left' (be32_length _)]
  have h0' := h0
  rw [← hdata] at h0'
  rw [parseIcns, if_pos htake, hdrop8, h0', hhdr]
  simp [icon_sizes]

/-- A concrete encoder for the witness: every resized image encodes to one
byte. -/
def constEnc : Nat × Nat → List Nat := fun _ => [0]

theorem create_icns_layout_witness :
    (∀ sz : Nat × Nat, (constEnc sz).length + 8 < 2 ^ 32) ∧
      (icns_data constEnc).length + 8 < 2 ^ 32 ∧
      parseIcns (create_icns_bytes constEnc)
        = some ((icns_data constEnc).length + 8,
            icon_sizes.map (fun e => (asciiBytes e.1, (constEnc e.2).length + 8, constEnc e.2))) :=
  ⟨fun sz => by simp [constEnc], by decide,
    create_icns_layout constEnc (fun sz => by simp [constEnc]) (by decide)⟩

/-!
### `validate_submission` (`app.py` lines 30-61)

The upload objects are modelled by the two attributes read (`name`,
`size`); the error list is built exactly as the code appends messages.
The semantic-version regex
`^\d+\.\d+\.\d+(-[0-9A-Za-z-.]+)?(\+[0-9A-Za-z-.]+)?$` is given its
denotational semantics (`SemverDecomp`, the existence of a decomposition
matched by the pattern) and an executable matcher (`semverMatch`, a
maximal-munch parser, complete for this pattern because every character
class is disjoint from its delimiter); `\d` is taken as the ASCII digits,
which coincides with Python's Unicode-aware `\d` on ASCII strings — the
theorems are stated for ASCII inputs.
-/

def isAsciiDigit (c : Char) : Bool := '0' ≤ c && c ≤ '9'

/-- The character class `[0-9A-Za-z-.]` of the pre-release/build groups. -/
def isIdentChar (c : Char) : Bool :=
  isAsciiDigit c || ('A' ≤ c && c ≤ 'Z') || ('a' ≤ c && c ≤ 'z') || c = '-' || c = '.'

/-- The denotation of the version pattern: some split into three nonempty
digit runs separated by dots, an optional `-`-led nonempty run over
`[0-9A-Za-z-.]`, and an optional `+`-led nonempty run over the same class. -/
def SemverDecomp (s : List Char) : Prop :=
  ∃ maj minor patch pre build : List Char,
    s = maj ++ '.' :: minor ++ '.' :: patch ++ pre ++ build ∧
    maj ≠ [] ∧ (∀ c ∈ maj, isAsciiDigit c = true) ∧
    minor ≠ [] ∧ (∀ c ∈ minor, isAsciiDigit c = true) ∧
    patch ≠ [] ∧ (∀ c ∈ patch, isAsciiDigit c = true) ∧
    (pre = [] ∨ ∃ p, pre = '-' :: p ∧ p ≠ [] ∧ (∀ c ∈ p, isIdentChar c = true)) ∧
    (build = [] ∨ ∃ b, build = '+' :: b ∧ b ≠ [] ∧ (∀ c ∈ b, isIdentChar c = true))

/-- Consume a literal dot. -/
def expectDot : List Char → Option (List Char)
  | c :: rest => if c = '.' then some rest else none
  | [] => none

/-- Consume an optional group `lead p+` greedily; `none` means the overall
match fails (the lead char is present but the body is empty). -/
def optGroup (lead : Char) (p : Char → Bool) : List Char → Option (List Char)
  | [] => some []
  | c :: rest =>
    if c = lead then
      if rest.takeWhile p = [] then none else some (rest.dropWhile p)
    else some (c :: rest)

/-- Consume a nonempty digit run (`\\d+`) greedily. -/
def munchNum (s : List Char) : Option (List Char) :=
  if s.takeWhile isAsciiDigit = [] then none else some (s.dropWhile isAsciiDigit)

/-- Executable matcher for the version pattern: `\\d+` `.` `\\d+` `.` `\\d+`,
optional `-[0-9A-Za-z-.]+`, optional `+[0-9A-Za-z-.]+`, end of string. -/
def semverMatch (s : List Char) : Bool :=
  match (((((munchNum s).bind expectDot).bind munchNum).bind expectDot).bind
      munchNum).bind (fun r =>
        (optGroup '-' isIdentChar r).bind (optGroup '+' isIdentChar)) with
  | some r => decide (r = [])
  | none => false

def MAX_FILE_SIZE_MB : Nat := 25

/-- The two attributes of an uploaded file that validation reads. -/
structure UploadedFile where
  name : String
  size : Nat

/-- The submitted-info dictionary. -/
structure SubmittedInfo where
  project_name : List Char
  project_version : List Char
  icon_uploaded : Option UploadedFile
  welcome_uploaded : Option UploadedFile
  headers_uploaded : Option UploadedFile

def versionErrorMsg : String :=
  "Project version must follow semantic versioning (e.g., 1.0.0)."

/-- `validate_submission`: the list of error messages, appended in source
order. -/
def validate_submission (info : SubmittedInfo) : List String :=
  (if pyStrip info.project_name = [] then ["Project name is required."] else []) ++
  (if pyStrip info.project_version = [] then ["Project version is required."]
   else if semverMatch (pyStrip info.project_version) then [] else [versionErrorMsg]) ++
  (match info.icon_uploaded with
   | some f =>
     if f.size > MAX_FILE_SIZE_MB * 1024 * 1024 then
       ["Icon file '" ++ f.name ++ "' exceeds 25 MB limit."]
     else []
   | none => []) ++
  (match info.welcome_uploaded with
   | some f =>
     if f.size > MAX_FILE_SIZE_MB * 1024 * 1024 then
       ["Welcome file '" ++ f.name ++ "' exceeds 25 MB limit."]
     else []
   | none => []) ++
  (match info.headers_uploaded with
   | some f =>
     if f.size > MAX_FILE_SIZE_MB * 1024 * 1024 then
       ["Headers file '" ++ f.name ++ "' exceeds 25 MB limit."]
     else []
   | none => [])

theorem takeWhile_append_all (p : Char → Bool) (l1 l2 : List Char)
    (h : ∀ c ∈ l1, p c = true) :
    (l1 ++ l2).takeWhile p = l1 ++ l2.takeWhile p := by
  induction l1 with
  | nil => simp
  | cons c t ih =>
    simp only [List.cons_append, List.takeWhile_cons, h c (by simp)]
    rw [ih (fun x hx => h x (by simp [hx]))]
    simp

theorem dropWhile_append_all (p : Char → Bool) (l1 l2 : List Char)
    (h : ∀ c ∈ l1, p c = true) :
    (l1 ++ l2).dropWhile p = l2.dropWhile p := by
  induction l1 with
  | nil => simp
  | cons c t ih =>
    simp only [List.cons_append, List.dropWhile_cons, h c (by simp)]
    rw [ih (fun x hx => h x (by simp [hx]))]
    simp

theorem expectDot_eq_some (l r : List Char) : expectDot l = some r ↔ l = '.' :: r := by
  cases l with
  | nil => simp [expectDot]
  | cons c rest =>
    by_cases hc : c = '.'
    · subst hc; simp [expectDot]
    · simp [expectDot, hc]

theorem optGroup_eq_some (lead : Char) (p : Char → Bool) (l r : List Char) :
    optGroup lead p l = some r ↔
      (l = [] ∧ r = []) ∨
      (∃ c rest, l = c :: rest ∧ c ≠ lead ∧ r = c :: rest) ∨
      (∃ rest, l = lead :: rest ∧ rest.takeWhile p ≠ [] ∧ r = rest.dropWhile p) := by
  cases l with
  | nil =>
    constructor
    · intro h
      rw [optGroup] at h
      exact Or.inl ⟨rfl, (Option.some_inj.mp h).symm⟩
    · rintro (⟨_, hr⟩ | ⟨c, rest, hl, _, _⟩ | ⟨rest, hl, _, _⟩)
      · subst hr; rfl
      · exact absurd hl (by simp)
      · exact absurd hl (by simp)
  | cons c rest =>
    by_cases hc : c = lead
    · subst hc
      by_cases ht : rest.takeWhile p = []
      · rw [optGroup, if_pos rfl, if_pos ht]
        constructor
        · intro h; exact absurd h (by simp)
        · rintro (⟨hl, _⟩ | ⟨c', rest', hl, hne, _⟩ | ⟨rest', hl, htw, _⟩)
          · exact absurd hl (by simp)
          · injection hl with h1 h2
            exact absurd h1.symm hne
          · injection hl with h1 h2
            subst h2
            exact absurd ht htw
      · rw [optGroup, if_pos rfl, if_neg ht]
        constructor
        · intro h
          exact Or.inr (Or.inr ⟨rest, rfl, ht, (Option.some_inj.mp h).symm⟩)
        · rintro (⟨hl, _⟩ | ⟨c', rest', hl, hne, _⟩ | ⟨rest', hl, htw, hr⟩)
          · exact absurd hl (by simp)
          · injection hl with h1 h2
            exact absurd h1.symm hne
          · injection hl with h1 h2
            subst h2
            subst hr
            rfl
    · rw [optGroup, if_neg hc]
      constructor
      · intro h
        exact Or.inr (Or.inl ⟨c, rest, rfl, hc, (Option.some_inj.mp h).symm⟩)
      · rintro (⟨hl, _⟩ | ⟨c', rest', hl, hne, hr⟩ | ⟨rest', hl, htw, hr⟩)
        · exact absurd hl (by simp)
        · injection hl with h1 h2
          subst h1
          subst h2
          subst hr
          rfl
        · injection hl with h1 h2
          exact absurd h1 hc

theorem munchNum_eq_some (s r : List Char) :
    munchNum s = some r ↔ s.takeWhile isAsciiDigit ≠ [] ∧ r = s.dropWhile isAsciiDigit := by
  rw [munchNum]
  by_cases h : s.takeWhile isAsciiDigit = []
  · simp [h]
  · simp [h, eq_comm]

theorem munchNum_complete (d X : List Char) (hdne : d ≠ [])
    (hdd : ∀ c ∈ d, isAsciiDigit c = true)
    (hX : X.takeWhile isAsciiDigit = []) :
    munchNum (d ++ X) = some X := by
  rw [munchNum, takeWhile_append_all _ _ _ hdd, hX, List.append_nil, if_neg hdne,
    dropWhile_append_all _ _ _ hdd]
  congr 1
  conv_rhs => rw [← List.takeWhile_append_dropWhile (p := isAsciiDigit) (l := X)]
  rw [hX, List.nil_append]

theorem optGroup_complete (lead : Char) (p : Char → Bool) (g r : List Char)
    (hg : g = [] ∨ ∃ t, g = lead :: t ∧ t ≠ [] ∧ ∀ c ∈ t, p c = true)
    (hr : r = [] ∨ ∃ q rest, r = q :: rest ∧ q ≠ lead ∧ p q = false) :
    optGroup lead p (g ++ r) = some r := by
  rcases hg with rfl | ⟨t, rfl, htne, htp⟩
  · rcases hr with rfl | ⟨q, rest, rfl, hq, _⟩
    · rfl
    · rw [List.nil_append, optGroup, if_neg hq]
  · rw [List.cons_append, optGroup, if_pos rfl]
    have hrt : r.takeWhile p = [] := by
      rcases hr with rfl | ⟨q, rest, rfl, _, hpq⟩
      · rfl
      · simp [List.takeWhile_cons, hpq]
    have hne : ¬((t ++ r).takeWhile p = []) := by
      rw [takeWhile_append_all p t r htp, hrt, List.append_nil]
      exact htne
    have hdrop : (t ++ r).dropWhile p = r := by
      rw [dropWhile_append_all p t r htp]
      rcases hr with rfl | ⟨q, rest, rfl, _, hpq⟩
      · rfl
      · simp [List.dropWhile_cons, hpq]
    rw [if_neg hne, hdrop]

theorem optGroup_decomp (lead : Char) (p : Char → Bool) (l r : List Char)
    (h : optGroup lead p l = some r) :
    ∃ g, l = g ++ r ∧
      (g = [] ∨ ∃ t, g = lead :: t ∧ t ≠ [] ∧ ∀ c ∈ t, p c = true) := by
  rcases (optGroup_eq_some lead p l r).mp h with ⟨h1, h2⟩ | ⟨c, rest, h1, hc, h2⟩ |
      ⟨rest, h1, htw, h2⟩
  · exact ⟨[], by simp [h1, h2], Or.inl rfl⟩
  · exact ⟨[], by simp [h1, h2], Or.inl rfl⟩
  · refine ⟨lead :: rest.takeWhile p, ?_,
      Or.inr ⟨rest.takeWhile p, rfl, htw, fun c hc => List.mem_takeWhile_imp hc⟩⟩
    rw [h1, h2, List.cons_append, List.takeWhile_append_dropWhile]

theorem semverMatch_iff (s : List Char) : semverMatch s = true ↔ SemverDecomp s := by
  constructor
  · intro h
    rw [semverMatch] at h
    obtain ⟨r1, hx1⟩ : ∃ r, munchNum s = some r := by
      cases hx : munchNum s with
      | none => rw [hx] at h; simp at h
      | some r => exact ⟨r, rfl⟩
    rw [hx1, Option.some_bind] at h
    obtain ⟨r2, hx2⟩ : ∃ r, expectDot r1 = some r := by
      cases hx : expectDot r1 with
      | none => rw [hx] at h; simp at h
      | some r => exact ⟨r, rfl⟩
    rw [hx2, Option.some_bind] at h
    obtain ⟨r3, hx3⟩ : ∃ r, munchNum r2 = some r := by
      cases hx : munchNum r2 with
      | none => rw [hx] at h; simp at h
      | some r => exact ⟨r, rfl⟩
    rw [hx3, Option.some_bind] at h
    obtain ⟨r4, hx4⟩ : ∃ r, expectDot r3 = some r := by
      cases hx : expectDot r3 with
      | none => rw [hx] at h; simp at h
      | some r => exact ⟨r, rfl⟩
    rw [hx4, Option.some_bind] at h
    obtain ⟨r5, hx5⟩ : ∃ r, munchNum r4 = some r := by
      cases hx : munchNum r4 with
      | none => rw [hx] at h; simp at h
      | some r => exact ⟨r, rfl⟩
    rw [hx5, Option.some_bind] at h
    obtain ⟨r6, hx6⟩ : ∃ r, optGroup '-' isIdentChar r5 = some r := by
      cases hx : optGroup '-' isIdentChar r5 with
      | none => rw [hx] at h; simp at h
      | some r => exact ⟨r, rfl⟩
    rw [hx6, Option.some_bind] at h
    obtain ⟨r7, hx7⟩ : ∃ r, optGroup '+' isIdentChar r6 = some r := by
      cases hx : optGroup '+' isIdentChar r6 with
      | none => rw [hx] at h; simp at h
      | some r => exact ⟨r, rfl⟩
    rw [hx7] at h
    have hr7 : r7 = [] := by simpa using h
    subst hr7
    obtain ⟨hm_ne, hr1⟩ := (munchNum_eq_some s r1).mp hx1
    have hdot1 : r1 = '.' :: r2 := (expectDot_eq_some r1 r2).mp hx2
    obtain ⟨hn_ne, hr3⟩ := (munchNum_eq_some r2 r3).mp hx3
    have hdot2 : r3 = '.' :: r4 := (expectDot_eq_some r3 r4).mp hx4
    obtain ⟨hp_ne, hr5⟩ := (munchNum_eq_some r4 r5).mp hx5
    obtain ⟨pre, hsplit1, hpre⟩ := optGroup_decomp '-' isIdentChar r5 r6 hx6
    obtain ⟨build, hsplit2, hbuild⟩ := optGroup_decomp '+' isIdentChar r6 [] hx7
    rw [List.append_nil] at hsplit2
    refine ⟨s.takeWhile isAsciiDigit, r2.takeWhile isAsciiDigit, r4.takeWhile isAsciiDigit,
      pre, build, ?_, hm_ne, fun c hc => List.mem_takeWhile_imp hc,
      hn_ne, fun c hc => List.mem_takeWhile_imp hc,
      hp_ne, fun c hc => List.mem_takeWhile_imp hc, hpre, hbuild⟩
    conv_lhs => rw [← List.takeWhile_append_dropWhile (p := isAsciiDigit) (l := s)]
    rw [← hr1, hdot1]
    conv_lhs => rw [show r2 = r2.takeWhile isAsciiDigit ++ r2.dropWhile isAsciiDigit from
      (List.takeWhile_append_dropWhile _ _).symm]
    rw [← hr3, hdot2]
    conv_lhs => rw [show r4 = r4.takeWhile isAsciiDigit ++ r4.dropWhile isAsciiDigit from
      (List.takeWhile_append_dropWhile _ _).symm]
    rw [← hr5, hsplit1, hsplit2]
    simp [List.append_assoc, List.cons_append]
  · rintro ⟨maj, minor, patch, pre, build, hs, hmne, hmd, hnne, hnd, hpne, hpd, hpre, hbuild⟩
    subst hs
    rw [semverMatch]
    simp only [List.cons_append, List.append_assoc]
    have hdotdigit : isAsciiDigit '.' = false := by decide
    have hpb_take : (pre ++ build).takeWhile isAsciiDigit = [] := by
      rcases hpre with rfl | ⟨p, rfl, _, _⟩
      · rcases hbuild with rfl | ⟨b, rfl, _, _⟩
        · rfl
        · simp [List.takeWhile_cons]
          decide
      · simp [List.takeWhile_cons]
        decide
    have h1 : munchNum (maj ++ ('.' :: (minor ++ ('.' :: (patch ++ (pre ++ build))))))
        = some ('.' :: (minor ++ ('.' :: (patch ++ (pre ++ build))))) := by
      apply munchNum_complete maj _ hmne hmd
      rw [List.takeWhile_cons]
      simp [hdotdigit]
    rw [h1, Option.some_bind, expectDot, if_pos rfl, Option.some_bind]
    have h2 : munchNum (minor ++ ('.' :: (patch ++ (pre ++ build))))
        = some ('.' :: (patch ++ (pre ++ build))) := by
      apply munchNum_complete minor _ hnne hnd
      rw [List.takeWhile_cons]
      simp [hdotdigit]
    rw [h2, Option.some_bind, expectDot, if_pos rfl, Option.some_bind]
    have h3 : munchNum (patch ++ (pre ++ build)) = some (pre ++ build) :=
      munchNum_complete patch _ hpne hpd hpb_take
    rw [h3, Option.some_bind]
    have h4 : optGroup '-' isIdentChar (pre ++ build) = some build := by
      apply optGroup_complete '-' isIdentChar pre build hpre
      rcases hbuild with rfl | ⟨b, rfl, _, _⟩
      · exact Or.inl rfl
      · exact Or.inr ⟨'+', b, rfl, by decide, by decide⟩
    rw [h4, Option.some_bind]
    have h5 : optGroup '+' isIdentChar build = some [] := by
      have h0 := optGroup_complete '+' isIdentChar build [] hbuild (Or.inl rfl)
      rwa [List.append_nil] at h0
    rw [h5]
    simp

theorem sizemsg_ne_version (pre suf n : String)
    (hne : ¬ pre.data.take 1 = versionErrorMsg.data.take 1)
    (hlen : 1 ≤ pre.data.length) :
    pre ++ n ++ suf ≠ versionErrorMsg := by
  intro h
  have h2 := congrArg String.data h
  rw [String.data_append, String.data_append] at h2
  apply hne
  rw [← h2, List.append_assoc, List.take_append_of_le_length hlen]

/-- **C5**: for every submission whose (already-trimmed, ASCII) version
string is considered, the version-format error is reported exactly when the
version is nonempty and admits no `MAJOR.MINOR.PATCH[-pre][+build]`
decomposition; and the concrete strings `"1.0"`, `"v1.0.0"` and
`"1.0.0..1"` are each rejected with the version-format error. -/
theorem validate_version_semantics (info : SubmittedInfo)
    (_hascii : ∀ c ∈ info.project_version, c.toNat < 128)
    (htrim : pyStrip info.project_version = info.project_version) :
    (versionErrorMsg ∈ validate_submission info ↔
      (info.project_version ≠ [] ∧ ¬ SemverDecomp info.project_version)) ∧
    versionErrorMsg ∈ validate_submission ⟨"x".data, "1.0".data, none, none, none⟩ ∧
    versionErrorMsg ∈ validate_submission ⟨"x".data, "v1.0.0".data, none, none, none⟩ ∧
    versionErrorMsg ∈ validate_submission ⟨"x".data, "1.0.0..1".data, none, none, none⟩ := by
  refine ⟨?_, by decide, by decide, by decide⟩
  have he1 : versionErrorMsg ∉
      (if pyStrip info.project_name = [] then ["Project name is required."] else []) := by
    split
    · intro hmem
      simp at hmem
      exact absurd hmem (by decide)
    · simp
  have he3 : ∀ (u : Option UploadedFile) (pre suf : String),
      ¬ pre.data.take 1 = versionErrorMsg.data.take 1 → 1 ≤ pre.data.length →
      versionErrorMsg ∉ (match u with
        | some f => if f.size > MAX_FILE_SIZE_MB * 1024 * 1024 then
            [pre ++ f.name ++ suf] else []
        | none => []) := by
    intro u pre suf hne hlen
    cases u with
    | none => simp
    | some f =>
      show versionErrorMsg ∉
        (if f.size > MAX_FILE_SIZE_MB * 1024 * 1024 then [pre ++ f.name ++ suf] else [])
      by_cases hsz : f.size > MAX_FILE_SIZE_MB * 1024 * 1024
      · rw [if_pos hsz]
        intro hmem
        simp at hmem
        exact absurd hmem.symm (sizemsg_ne_version pre suf f.name hne hlen)
      · rw [if_neg hsz]
        simp
  rw [validate_submission]
  simp only [List.mem_append]
  constructor
  · rintro ((((h | h) | h) | h) | h)
    · exact absurd h he1
    · rw [htrim] at h
      by_cases hv : info.project_version = []
      · rw [if_pos hv] at h
        simp at h
        exact absurd h (by decide)
      · rw [if_neg hv] at h
        by_cases hm : semverMatch info.project_version
        · rw [if_pos hm] at h
          simp at h
        · rw [if_neg hm] at h
          exact ⟨hv, fun hd => hm ((semverMatch_iff _).mpr hd)⟩
    · exact absurd h (he3 info.icon_uploaded "Icon file '" "' exceeds 25 MB limit."
        (by decide) (by decide))
    · exact absurd h (he3 info.welcome_uploaded "Welcome file '" "' exceeds 25 MB limit."
        (by decide) (by decide))
    · exact absurd h (he3 info.headers_uploaded "Headers file '" "' exceeds 25 MB limit."
        (by decide) (by decide))
  · rintro ⟨hv, hd⟩
    refine Or.inl (Or.inl (Or.inl (Or.inr ?_)))
    rw [htrim, if_neg hv, if_neg (fun hm => hd ((semverMatch_iff _).mp hm))]
    exact List.mem_singleton.mpr rfl

theorem validate_version_semantics_witness :
    (∀ c ∈ ("1.2.3".data : List Char), c.toNat < 128) ∧
      pyStrip "1.2.3".data = "1.2.3".data ∧
      versionErrorMsg ∈ validate_submission ⟨"x".data, "1.0".data, none, none, none⟩ :=
  ⟨by decide, by decide,
    (validate_version_semantics ⟨"x".data, "1.2.3".data, none, none, none⟩
      (by decide) (by decide)).2.1⟩

/-!
### The publish pipeline (`app.py` lines 69-209 and 429-534)

External effects are embedded by an explicit environment: the forge's
answer to the current-user request, the outcome of each git subcommand
(`Except.error` models the non-zero-exit `RuntimeError` of
`run_git_command`), the wall clock, and the outcome of each fallible
pipeline step.  Each function returns its Python return value together
with the ordered trace of observable events, so claims about "which
commands ran" and "was a PR opened" are claims about the trace.
-/

/-- The fields of the `GET /user` response the code reads (`login?` is
`response.json().get("login")`; the body is assumed to be JSON). -/
structure UserResponse where
  status_code : Nat
  text : String
  login? : Option String
deriving DecidableEq

/-- `get_authenticated_username`: the username on 200 (falling back to
`"user"` when the body has no `login` field), an error otherwise. -/
def get_authenticated_username (r : UserResponse) : Except String String :=
  if r.status_code = 200 then
    Except.ok (r.login?.getD "user")
  else
    Except.error ("❌ Could not retrieve GitHub username: "
      ++ toString r.status_code ++ " — " ++ r.text)

/-- `has_changes_to_commit`: `bool(status.strip())`, and `false` (with a
warning) when the status query itself failed. -/
def has_changes_to_commit (statusOutcome : Except String String) : Bool :=
  match statusOutcome with
  | Except.ok out => decide (pyStrip out.data ≠ [])
  | Except.error _ => false

/-- Observable events of a publish run. -/
inductive Ev where
  | git (args : List String) : Ev
  | createPR : Ev
deriving DecidableEq

/-- The environment of `push_config_changes_to_new_branch`. -/
structure GitWorld where
  user : UserResponse
  git : List String → Except String String
  now : String

/-- One `run_git_command` call: consult the environment, extend the trace. -/
def runGit (w : GitWorld) (tr : List Ev) (args : List String) :
    Except String String × List Ev :=
  (w.git args, tr ++ [Ev.git args])

/-- `push_config_changes_to_new_branch`: identity setup, checkout+pull,
change detection with early `None` return, then branch/add/commit/push;
every raised `RuntimeError` is caught at the top level and turns into
`none`.  Returns the pushed branch name (or `none`) and the trace of git
commands actually run. -/
def push_config_changes_to_new_branch (w : GitWorld)
    (folder branchPfx commitMessage : String) : Option String × List Ev :=
  match get_authenticated_username w.user with
  | Except.error _ => (none, [])
  | Except.ok username =>
    let newBranch := branchPfx ++ "/" ++ username ++ "-" ++ w.now
    let s1 := runGit w [] ["config", "user.email", username ++ "@users.noreply.github.com"]
    match s1.1 with
    | Except.error _ => (none, s1.2)
    | Except.ok _ =>
      let s2 := runGit w s1.2 ["config", "user.name", username]
      match s2.1 with
      | Except.error _ => (none, s2.2)
      | Except.ok _ =>
        let s3 := runGit w s2.2 ["checkout", "main"]
        match s3.1 with
        | Except.error _ => (none, s3.2)
        | Except.ok _ =>
          let s4 := runGit w s3.2 ["pull", "origin", "main"]
          match s4.1 with
          | Except.error _ => (none, s4.2)
          | Except.ok _ =>
            let s5 := runGit w s4.2 ["status", "--porcelain", folder]
            if has_changes_to_commit s5.1 = false then (none, s5.2)
            else
              let s6 := runGit w s5.2 ["checkout", "-b", newBranch]
              match s6.1 with
              | Except.error _ => (none, s6.2)
              | Except.ok _ =>
                let s7 := runGit w s6.2 ["add", folder]
                match s7.1 with
                | Except.error _ => (none, s7.2)
                | Except.ok _ =>
                  let s8 := runGit w s7.2 ["commit", "-m", commitMessage]
                  match s8.1 with
                  | Except.error _ => (none, s8.2)
                  | Except.ok _ =>
                    let s9 := runGit w s8.2 ["push", "--set-upstream", "origin", newBranch]
                    match s9.1 with
                    | Except.error _ => (none, s9.2)
                    | Except.ok _ => (some newBranch, s9.2)

/-- `push_and_create_pr`: publish the branch, and call
`create_pull_request` only when a branch name came back. -/
def push_and_create_pr (w : GitWorld)
    (folder branchPfx commitMessage : String) : Option String × List Ev :=
  let r := push_config_changes_to_new_branch w folder branchPfx commitMessage
  match r.1 with
  | some b => (some b, r.2 ++ [Ev.createPR])
  | none => (none, r.2)

/-- **C6**: when the run reaches the status check and it reports no pending
changes, `push_config_changes_to_new_branch` returns `none` having run only
the two config commands, the checkout, the pull and the status query — no
`checkout -b`, `add`, `commit` or `push` — and `push_and_create_pr`
consequently never calls `create_pull_request`. -/
theorem no_changes_no_pr (w : GitWorld) (folder branchPfx commitMessage : String)
    (u s1 s2 s3 s4 : String)
    (husr : get_authenticated_username w.user = Except.ok u)
    (h1 : w.git ["config", "user.email", u ++ "@users.noreply.github.com"] = Except.ok s1)
    (h2 : w.git ["config", "user.name", u] = Except.ok s2)
    (h3 : w.git ["checkout", "main"] = Except.ok s3)
    (h4 : w.git ["pull", "origin", "main"] = Except.ok s4)
    (h5 : has_changes_to_commit (w.git ["status", "--porcelain", folder]) = false) :
    push_config_changes_to_new_branch w folder branchPfx commitMessage
        = (none, [Ev.git ["config", "user.email", u ++ "@users.noreply.github.com"],
            Ev.git ["config", "user.name", u], Ev.git ["checkout", "main"],
            Ev.git ["pull", "origin", "main"], Ev.git ["status", "--porcelain", folder]]) ∧
      (push_and_create_pr w folder branchPfx commitMessage).1 = none ∧
      Ev.createPR ∉ (push_and_create_pr w folder branchPfx commitMessage).2 ∧
      (∀ args, Ev.git args ∈ (push_config_changes_to_new_branch w folder branchPfx
          commitMessage).2 →
        args.head? ≠ some "commit" ∧ args.head? ≠ some "push" ∧
        args.head? ≠ some "add" ∧ args.head? ≠ some "checkout" ∨
        args = ["checkout", "main"]) := by
  have hmain : push_config_changes_to_new_branch w folder branchPfx commitMessage
      = (none, [Ev.git ["config", "user.email", u ++ "@users.noreply.github.com"],
          Ev.git ["config", "user.name", u], Ev.git ["checkout", "main"],
          Ev.git ["pull", "origin", "main"], Ev.git ["status", "--porcelain", folder]]) := by
    rw [push_config_changes_to_new_branch, husr]
    simp only [runGit, h1, h2, h3, h4, h5]
    simp
  refine ⟨hmain, ?_, ?_, ?_⟩
  · rw [push_and_create_pr, hmain]
  · rw [push_and_create_pr, hmain]
    simp
  · intro args hmem
    rw [hmain] at hmem
    simp only [List.mem_cons, List.not_mem_nil, or_false] at hmem
    rcases hmem with h | h | h | h | h
    · injection h with h'
      subst h'
      left
      refine ⟨?_, ?_, ?_, ?_⟩ <;> (simp only [List.head?_cons]; decide)
    · injection h with h'
      subst h'
      left
      refine ⟨?_, ?_, ?_, ?_⟩ <;> (simp only [List.head?_cons]; decide)
    · injection h with h'
      subst h'
      right
      rfl
    · injection h with h'
      subst h'
      left
      refine ⟨?_, ?_, ?_, ?_⟩ <;> (simp only [List.head?_cons]; decide)
    · injection h with h'
      subst h'
      left
      refine ⟨?_, ?_, ?_, ?_⟩ <;> (simp only [List.head?_cons]; decide)

/-- A concrete environment for the witness: authenticated as "alice", every
git command succeeds with empty output (so the status query reports no
changes). -/
def c6World : GitWorld :=
  { user := ⟨200, "", some "alice"⟩,
    git := fun _ => Except.ok "",
    now := "202501010101" }

theorem no_changes_no_pr_witness :
    get_authenticated_username c6World.user = Except.ok "alice" ∧
      has_changes_to_commit (c6World.git ["status", "--porcelain", "repo"]) = false ∧
      (push_and_create_pr c6World "repo" "submission" "msg").1 = none ∧
      Ev.createPR ∉ (push_and_create_pr c6World "repo" "submission" "msg").2 :=
  ⟨rfl, by decide,
    (no_changes_no_pr c6World "repo" "submission" "msg" "alice" "" "" "" ""
      rfl rfl rfl rfl rfl (by decide)).2.1,
    (no_changes_no_pr c6World "repo" "submission" "msg" "alice" "" "" "" ""
      rfl rfl rfl rfl rfl (by decide)).2.2.1⟩

/-- Python's substring containment `needle in hay`. -/
def containsSubstr (needle : List Char) : List Char → Bool
  | [] => decide (needle = [])
  | c :: rest => List.isPrefixOf needle (c :: rest) || containsSubstr needle rest

/-!
### `create_pull_request` (`app.py` lines 145-181)

The response is modelled by the fields the code reads; `json` is
`response.json()` (an `Except.error` models a JSON parse failure raising),
and the parsed object's optional `html_url` field models the `["html_url"]`
lookup (a missing key raises `KeyError`).  The whole body runs inside
`try/except`, so the input is `Except String PRResponse`, the `error` case
covering the URL-unpack and network exceptions; every exception path ends
in the `except` arm, which reports and returns `None`. -/

/-- The parsed JSON object of a created PR, reduced to the read field. -/
structure PRJson where
  html_url? : Option String
deriving DecidableEq

/-- The fields of the POST response the code reads. -/
structure PRResponse where
  status_code : Nat
  text : String
  json : Except String PRJson

/-- What the function reports to the user. -/
inductive PREvent where
  | createdMsg (url : String)
  | alreadyExistsMsg
  | failedMsg (status : Nat) (text : String)
  | errorMsg
deriving DecidableEq

/-- `create_pull_request`: the returned value (the parsed JSON object on
201, otherwise `none`) and the reported message. -/
def create_pull_request (resp : Except String PRResponse) : Option PRJson × PREvent :=
  match resp with
  | Except.error _ => (none, PREvent.errorMsg)
  | Except.ok r =>
    if r.status_code = 201 then
      match r.json with
      | Except.error _ => (none, PREvent.errorMsg)
      | Except.ok j =>
        match j.html_url? with
        | none => (none, PREvent.errorMsg)
        | some url => (some j, PREvent.createdMsg url)
    else if r.status_code = 422 ∧ containsSubstr "already exists".data r.text.data then
      (none, PREvent.alreadyExistsMsg)
    else
      (none, PREvent.failedMsg r.status_code r.text)

/-- **C9 counterexample**: a 201 response whose body does not parse — the
`["html_url"]` lookup raises, the exception arm returns `None`, so a value
is *not* returned "exactly when the forge responds 201". -/
theorem create_pull_request_201_counterexample :
    (PRResponse.mk 201 "" (Except.error "invalid json")).status_code = 201 ∧
      (create_pull_request (Except.ok (PRResponse.mk 201 "" (Except.error "invalid json")))).1
        = none :=
  ⟨rfl, rfl⟩

/-- **C9** (amended): `create_pull_request` returns the parsed PR object
(reporting its `html_url`) exactly when the forge responds 201 *and* the
body parses as JSON with an `html_url` field; a 422 whose body contains
"already exists" is reported as soft success with no value; every other
response, and every network/parse exception, is reported as a failure with
no value; no exception propagates (the function is total on its
environment). -/
theorem create_pull_request_behavior (resp : Except String PRResponse) :
    ((∃ j, (create_pull_request resp).1 = some j) ↔
      (∃ r j url, resp = Except.ok r ∧ r.status_code = 201 ∧
        r.json = Except.ok j ∧ j.html_url? = some url)) ∧
    (∀ r j url, resp = Except.ok r → r.status_code = 201 → r.json = Except.ok j →
      j.html_url? = some url →
      create_pull_request resp = (some j, PREvent.createdMsg url)) ∧
    (∀ r, resp = Except.ok r → r.status_code = 422 →
      containsSubstr "already exists".data r.text.data = true →
      create_pull_request resp = (none, PREvent.alreadyExistsMsg)) ∧
    (∀ r, resp = Except.ok r → r.status_code ≠ 201 → r.status_code ≠ 422 →
      create_pull_request resp = (none, PREvent.failedMsg r.status_code r.text)) ∧
    (∀ e, resp = Except.error e → create_pull_request resp = (none, PREvent.errorMsg)) := by
  refine ⟨?_, ?_, ?_, ?_, ?_⟩
  · constructor
    · intro hex
      obtain ⟨j, hj⟩ := hex
      match resp with
      | Except.error e => simp [create_pull_request] at hj
      | Except.ok r =>
        rw [create_pull_request] at hj
        by_cases h201 : r.status_code = 201
        · rw [if_pos h201] at hj
          match hjson : r.json with
          | Except.error e => rw [hjson] at hj; simp at hj
          | Except.ok j' =>
            rw [hjson] at hj
            dsimp only at hj
            match hurl : j'.html_url? with
            | none => rw [hurl] at hj; simp at hj
            | some url =>
              exact ⟨r, j', url, rfl, h201, hjson, hurl⟩
        · rw [if_neg h201] at hj
          split at hj
          · simp at hj
          · simp at hj
    · rintro ⟨r, j, url, rfl, h201, hjson, hurl⟩
      exact ⟨j, by simp [create_pull_request, h201, hjson, hurl]⟩
  · rintro r j url rfl h201 hjson hurl
    simp [create_pull_request, h201, hjson, hurl]
  · rintro r rfl h422 hsub
    rw [create_pull_request, if_neg (by omega), if_pos ⟨h422, hsub⟩]
  · rintro r rfl h201 h422
    rw [create_pull_request, if_neg h201, if_neg (fun hc => h422 hc.1)]
  · rintro e rfl
    rfl

theorem create_pull_request_behavior_witness :
    ((Except.ok (PRResponse.mk 422 "A pull request already exists for branch."
        (Except.error "e")) : Except String PRResponse)
      = Except.ok (PRResponse.mk 422 "A pull request already exists for branch."
        (Except.error "e"))) ∧
      (PRResponse.mk 422 "A pull request already exists for branch."
        (Except.error "e")).status_code = 422 ∧
      containsSubstr "already exists".data
        (PRResponse.mk 422 "A pull request already exists for branch."
          (Except.error "e")).text.data = true ∧
      create_pull_request (Except.ok (PRResponse.mk 422
        "A pull request already exists for branch." (Except.error "e")))
        = (none, PREvent.alreadyExistsMsg) :=
  ⟨rfl, rfl, by decide,
    (create_pull_request_behavior _).2.2.1 _ rfl rfl (by decide)⟩

/-- **C10**: `get_authenticated_username` raises exactly on a non-200
status; a 200 response whose JSON body lacks a `login` field does not fail
but yields the literal fallback `"user"`; and when the push pipeline then
runs through, the fallback becomes part of the derived branch name
`<prefix>/user-<timestamp>`. -/
theorem username_fallback (r : UserResponse) :
    ((∃ e, get_authenticated_username r = Except.error e) ↔ r.status_code ≠ 200) ∧
    (r.status_code = 200 → r.login? = none →
      get_authenticated_username r = Except.ok "user") ∧
    (∀ (w : GitWorld) (folder branchPfx commitMessage : String)
      (s1 s2 s3 s4 s6 s7 s8 s9 : String),
      w.user.status_code = 200 → w.user.login? = none →
      w.git ["config", "user.email", "user" ++ "@users.noreply.github.com"] = Except.ok s1 →
      w.git ["config", "user.name", "user"] = Except.ok s2 →
      w.git ["checkout", "main"] = Except.ok s3 →
      w.git ["pull", "origin", "main"] = Except.ok s4 →
      has_changes_to_commit (w.git ["status", "--porcelain", folder]) = true →
      w.git ["checkout", "-b", branchPfx ++ "/" ++ "user" ++ "-" ++ w.now] = Except.ok s6 →
      w.git ["add", folder] = Except.ok s7 →
      w.git ["commit", "-m", commitMessage] = Except.ok s8 →
      w.git ["push", "--set-upstream", "origin", branchPfx ++ "/" ++ "user" ++ "-" ++ w.now]
        = Except.ok s9 →
      (push_config_changes_to_new_branch w folder branchPfx commitMessage).1
        = some (branchPfx ++ "/" ++ "user" ++ "-" ++ w.now)) := by
  refine ⟨?_, ?_, ?_⟩
  · constructor
    · rintro ⟨e, he⟩ h200
      rw [get_authenticated_username, if_pos h200] at he
      exact absurd he (by simp)
    · intro h200
      rw [get_authenticated_username, if_neg h200]
      exact ⟨_, rfl⟩
  · intro h200 hlogin
    rw [get_authenticated_username, if_pos h200, hlogin]
    rfl
  · intro w folder branchPfx commitMessage s1 s2 s3 s4 s6 s7 s8 s9
      h200 hlogin h1 h2 h3 h4 h5 h6 h7 h8 h9
    have husr : get_authenticated_username w.user = Except.ok "user" := by
      rw [get_authenticated_username, if_pos h200, hlogin]
      rfl
    rw [push_config_changes_to_new_branch, husr]
    simp only [runGit, h1, h2, h3, h4, h5, h6, h7, h8, h9]
    simp

/-- A concrete environment for the C10 witness: 200 with no `login` field,
every git command succeeds, the status query reports a modified file. -/
def c10World : GitWorld :=
  { user := ⟨200, "", none⟩,
    git := fun args => if args.head? = some "status" then Except.ok " M construct.yaml"
      else Except.ok "",
    now := "202501010101" }

theorem username_fallback_witness :
    c10World.user.status_code = 200 ∧ c10World.user.login? = none ∧
      has_changes_to_commit (c10World.git ["status", "--porcelain", "repo"]) = true ∧
      (push_config_changes_to_new_branch c10World "repo" "submission" "msg").1
        = some ("submission" ++ "/" ++ "user" ++ "-" ++ c10World.now) :=
  ⟨rfl, rfl, by decide,
    (username_fallback c10World.user).2.2 c10World "repo" "submission" "msg"
      "" "" "" "" "" "" "" "" rfl rfl rfl rfl rfl rfl (by decide) rfl rfl rfl rfl⟩

/-!
### `enqueue_pull_request` (`app.py` lines 429-534)

The pipeline's fallible steps are abstracted as outcomes in the
environment (`Except.error` = the step raised); the trace records which
steps ran.  The source has **no** try/finally around the pipeline — the
caller's try/except is commented out — so a raising step propagates and
everything after it (including the final `shutil.rmtree` cleanup) does not
run.  `push_and_create_pr` catches all its own errors, so the publish step
never raises. -/

/-- The observable steps of one `enqueue_pull_request` run. -/
inductive EnqEv where
  | reuse
  | removedExisting
  | clone
  | stageAssets
  | initProject
  | readme
  | publish
  | rmtree
deriving DecidableEq

/-- The environment of one run. -/
structure EnqWorld where
  sessionRepoPath : Option String
  gitDirExists : String → Bool
  cwd : String
  removeExistingOutcome : Except String Unit
  cloneOutcome : Except String Unit
  stageOutcome : Except String Unit
  initOutcome : Except String Unit
  readmeOutcome : Except String Unit
  rmtreeFailure : Option Bool
  chmodRetryOk : Bool

/-- `handle_remove_error`: chmod+retry for a non-writable path (the retry
itself may raise), re-raise for a writable one. -/
def handle_remove_error (writable retryOk : Bool) : Except String Unit :=
  if !writable then
    if retryOk then Except.ok () else Except.error "retry after chmod failed"
  else Except.error "exc_info re-raised"

/-- The final `shutil.rmtree(..., onerror=handle_remove_error)`. -/
def rmtreeStep (w : EnqWorld) : Except String Unit :=
  match w.rmtreeFailure with
  | none => Except.ok ()
  | some writable => handle_remove_error writable w.chmodRetryOk

def pathJoin (a b : String) : String := a ++ "/" ++ b

/-- The else-branch of Acquire: derive the path, remove it when it holds a
`.git` directory, then clone (a clone failure is re-raised as
`"❌ Git clone failed: ..."`). -/
def acquireFresh (w : EnqWorld) (repoName : String) : Except String Unit × List EnqEv :=
  if w.gitDirExists (pathJoin w.cwd repoName) then
    match w.removeExistingOutcome with
    | Except.error e => (Except.error e, [EnqEv.removedExisting])
    | Except.ok _ =>
      match w.cloneOutcome with
      | Except.error e => (Except.error ("❌ Git clone failed: " ++ e),
          [EnqEv.removedExisting, EnqEv.clone])
      | Except.ok _ => (Except.ok (), [EnqEv.removedExisting, EnqEv.clone])
  else
    match w.cloneOutcome with
    | Except.error e => (Except.error ("❌ Git clone failed: " ++ e), [EnqEv.clone])
    | Except.ok _ => (Except.ok (), [EnqEv.clone])

/-- The Acquire step: reuse only when the session records a repo path whose
`.git` exists; otherwise fall through to `acquireFresh`. -/
def acquireStep (w : EnqWorld) (repoName : String) : Except String Unit × List EnqEv :=
  match w.sessionRepoPath with
  | some p => if w.gitDirExists p then (Except.ok (), [EnqEv.reuse])
      else acquireFresh w repoName
  | none => acquireFresh w repoName

/-- The pipeline after a successful Acquire: stage assets,
`initialize_project`, README handling, publish (never raises), cleanup;
the trace is relative to the end of the Acquire trace. -/
def restOfPipeline (w : EnqWorld) : Except String Unit × List EnqEv :=
  match w.stageOutcome with
  | Except.error e => (Except.error e, [EnqEv.stageAssets])
  | Except.ok _ =>
    match w.initOutcome with
    | Except.error e => (Except.error e, [EnqEv.stageAssets, EnqEv.initProject])
    | Except.ok _ =>
      match w.readmeOutcome with
      | Except.error e => (Except.error e,
          [EnqEv.stageAssets, EnqEv.initProject, EnqEv.readme])
      | Except.ok _ =>
        match rmtreeStep w with
        | Except.error e => (Except.error e,
            [EnqEv.stageAssets, EnqEv.initProject, EnqEv.readme,
              EnqEv.publish, EnqEv.rmtree])
        | Except.ok _ => (Except.ok (),
            [EnqEv.stageAssets, EnqEv.initProject, EnqEv.readme,
              EnqEv.publish, EnqEv.rmtree])

/-- `enqueue_pull_request`: Acquire, then the rest of the pipeline; a
raising step aborts everything after it (no try/finally in the source). -/
def enqueue_pull_request (w : EnqWorld) (repoName : String) :
    Except String Unit × List EnqEv :=
  match (acquireStep w repoName).1 with
  | Except.error e => (Except.error e, (acquireStep w repoName).2)
  | Except.ok _ =>
    ((restOfPipeline w).1, (acquireStep w repoName).2 ++ (restOfPipeline w).2)

theorem mem_acquireFresh (w : EnqWorld) (rn : String) (ev : EnqEv)
    (h : ev ∈ (acquireFresh w rn).2) :
    ev = EnqEv.removedExisting ∨ ev = EnqEv.clone := by
  rw [acquireFresh] at h
  by_cases hg : w.gitDirExists (pathJoin w.cwd rn)
  · rw [if_pos hg] at h
    cases hro : w.removeExistingOutcome with
    | error e =>
      rw [hro] at h
      simp at h
      exact Or.inl h
    | ok u =>
      rw [hro] at h
      cases hco : w.cloneOutcome with
      | error e =>
        rw [hco] at h
        simp at h
        exact h
      | ok u2 =>
        rw [hco] at h
        simp at h
        exact h
  · rw [if_neg hg] at h
    cases hco : w.cloneOutcome with
    | error e =>
      rw [hco] at h
      simp at h
      exact Or.inr h
    | ok u =>
      rw [hco] at h
      simp at h
      exact Or.inr h

theorem mem_acquireStep (w : EnqWorld) (rn : String) (ev : EnqEv)
    (h : ev ∈ (acquireStep w rn).2) :
    ev = EnqEv.reuse ∨ ev = EnqEv.removedExisting ∨ ev = EnqEv.clone := by
  rw [acquireStep] at h
  cases hsp : w.sessionRepoPath with
  | none =>
    rw [hsp] at h
    exact Or.inr (mem_acquireFresh w rn ev h)
  | some p =>
    rw [hsp] at h
    dsimp only at h
    by_cases hg : w.gitDirExists p
    · rw [if_pos hg] at h
      simp at h
      exact Or.inl h
    · rw [if_neg hg] at h
      exact Or.inr (mem_acquireFresh w rn ev h)

theorem rmtree_mem_restOfPipeline (w : EnqWorld) :
    EnqEv.rmtree ∈ (restOfPipeline w).2 ↔
      w.stageOutcome = Except.ok () ∧ w.initOutcome = Except.ok () ∧
        w.readmeOutcome = Except.ok () := by
  rw [restOfPipeline]
  cases hst : w.stageOutcome with
  | error e =>
    simp
  | ok u =>
    cases u
    cases hin : w.initOutcome with
    | error e => simp
    | ok u =>
      cases u
      cases hrd : w.readmeOutcome with
      | error e => simp
      | ok u =>
        cases u
        cases hrm : rmtreeStep w with
        | error e => simp
        | ok u => simp

/-- **C7 counterexample**: `initialize_project` raises while the working
copy exists (it was reused) — the run aborts with that error and the
cleanup `rmtree` is never attempted, because the source has no try/finally
around the pipeline. -/
def c7World : EnqWorld :=
  { sessionRepoPath := some "/tmp/LabRepo",
    gitDirExists := fun _ => true,
    cwd := "/app",
    removeExistingOutcome := Except.ok (),
    cloneOutcome := Except.ok (),
    stageOutcome := Except.ok (),
    initOutcome := Except.error "IOError: template file not found",
    readmeOutcome := Except.ok (),
    rmtreeFailure := none,
    chmodRetryOk := true }

theorem cleanup_skipped_counterexample :
    (enqueue_pull_request c7World "LabRepo").1
        = Except.error "IOError: template file not found" ∧
      EnqEv.rmtree ∉ (enqueue_pull_request c7World "LabRepo").2 := by
  constructor
  · rfl
  · decide

/-- **C7** (amended): the cleanup removal runs exactly when Acquire, asset
staging, templating and README handling all completed without raising (a
publish failure is caught internally and still reaches cleanup); and a
failure of the removal itself on a writable path is re-raised by
`handle_remove_error` and propagates to the caller instead of being
swallowed. -/
theorem cleanup_only_on_success (w : EnqWorld) (repoName : String) :
    (EnqEv.rmtree ∈ (enqueue_pull_request w repoName).2 ↔
      (acquireStep w repoName).1 = Except.ok () ∧ w.stageOutcome = Except.ok () ∧
        w.initOutcome = Except.ok () ∧ w.readmeOutcome = Except.ok ()) ∧
    ((acquireStep w repoName).1 = Except.ok () → w.stageOutcome = Except.ok () →
      w.initOutcome = Except.ok () → w.readmeOutcome = Except.ok () →
      w.rmtreeFailure = some true →
      (enqueue_pull_request w repoName).1 = Except.error "exc_info re-raised") := by
  constructor
  · rw [enqueue_pull_request]
    cases hacq : (acquireStep w repoName).1 with
    | error e =>
      constructor
      · intro hmem
        simp only at hmem
        rcases mem_acquireStep w repoName _ hmem with h | h | h <;> exact absurd h (by decide)
      · rintro ⟨h1, _⟩
        exact absurd h1 (by simp)
    | ok u =>
      cases u
      simp only [List.mem_append]
      rw [rmtree_mem_restOfPipeline]
      constructor
      · rintro (hmem | hmem)
        · rcases mem_acquireStep w repoName _ hmem with h | h | h <;> exact absurd h (by decide)
        · exact ⟨by trivial, hmem⟩
      · rintro ⟨_, hrest⟩
        exact Or.inr hrest
  · intro h1 h2 h3 h4 h5
    rw [enqueue_pull_request, h1]
    have hrest : (restOfPipeline w).1 = Except.error "exc_info re-raised" := by
      rw [restOfPipeline, h2, h3, h4]
      have hrm : rmtreeStep w = Except.error "exc_info re-raised" := by
        rw [rmtreeStep, h5]
        rfl
      rw [hrm]
    rw [hrest]

/-- All steps succeed but the final removal fails on a writable path. -/
def c7bWorld : EnqWorld :=
  { sessionRepoPath := some "/tmp/LabRepo",
    gitDirExists := fun _ => true,
    cwd := "/app",
    removeExistingOutcome := Except.ok (),
    cloneOutcome := Except.ok (),
    stageOutcome := Except.ok (),
    initOutcome := Except.ok (),
    readmeOutcome := Except.ok (),
    rmtreeFailure := some true,
    chmodRetryOk := true }

theorem cleanup_only_on_success_witness :
    (acquireStep c7bWorld "LabRepo").1 = Except.ok () ∧
      c7bWorld.stageOutcome = Except.ok () ∧ c7bWorld.initOutcome = Except.ok () ∧
      c7bWorld.readmeOutcome = Except.ok () ∧ c7bWorld.rmtreeFailure = some true ∧
      (enqueue_pull_request c7bWorld "LabRepo").1 = Except.error "exc_info re-raised" :=
  ⟨rfl, rfl, rfl, rfl, rfl,
    (cleanup_only_on_success c7bWorld "LabRepo").2 rfl rfl rfl rfl rfl⟩

/-- Fresh session, valid repository metadata at the derived path. -/
def c8World1 : EnqWorld :=
  { sessionRepoPath := none,
    gitDirExists := fun _ => true,
    cwd := "/app",
    removeExistingOutcome := Except.ok (),
    cloneOutcome := Except.ok (),
    stageOutcome := Except.ok (),
    initOutcome := Except.ok (),
    readmeOutcome := Except.ok (),
    rmtreeFailure := none,
    chmodRetryOk := true }

/-- Fresh session, a leftover at the derived path without `.git`. -/
def c8World2 : EnqWorld :=
  { c8World1 with gitDirExists := fun _ => false }

/-- **C8 counterexample**: with no session state, a working copy at the
derived path *with* valid `.git` metadata is removed and re-cloned rather
than reused; and with a leftover *without* `.git` metadata, nothing is
removed before the clone. -/
theorem acquire_counterexample :
    c8World1.sessionRepoPath = none ∧
      c8World1.gitDirExists (pathJoin c8World1.cwd "LabRepo") = true ∧
      acquireStep c8World1 "LabRepo"
        = (Except.ok (), [EnqEv.removedExisting, EnqEv.clone]) ∧
      EnqEv.reuse ∉ (acquireStep c8World1 "LabRepo").2 ∧
      c8World2.gitDirExists (pathJoin c8World2.cwd "LabRepo") = false ∧
      acquireStep c8World2 "LabRepo" = (Except.ok (), [EnqEv.clone]) ∧
      EnqEv.removedExisting ∉ (acquireStep c8World2 "LabRepo").2 :=
  ⟨rfl, rfl, rfl, by decide, rfl, rfl, by decide⟩

/-- **C8** (amended): the Acquire step reuses the working copy (no removal,
no clone) exactly when the session records a repo path whose `.git`
exists; otherwise it derives the path and clones, first removing the
existing directory only when that directory *does* contain `.git`; a
non-repository leftover is not removed. -/
theorem acquire_behavior (w : EnqWorld) (repoName : String) :
    (∀ p, w.sessionRepoPath = some p → w.gitDirExists p = true →
      acquireStep w repoName = (Except.ok (), [EnqEv.reuse])) ∧
    (∀ p, w.sessionRepoPath = some p → w.gitDirExists p = false →
      acquireStep w repoName = acquireFresh w repoName) ∧
    (w.sessionRepoPath = none → acquireStep w repoName = acquireFresh w repoName) ∧
    (w.gitDirExists (pathJoin w.cwd repoName) = true →
      w.removeExistingOutcome = Except.ok () → w.cloneOutcome = Except.ok () →
      acquireFresh w repoName = (Except.ok (), [EnqEv.removedExisting, EnqEv.clone])) ∧
    (w.gitDirExists (pathJoin w.cwd repoName) = false →
      w.cloneOutcome = Except.ok () →
      acquireFresh w repoName = (Except.ok (), [EnqEv.clone])) := by
  refine ⟨?_, ?_, ?_, ?_, ?_⟩
  · intro p hp hg
    rw [acquireStep, hp]
    dsimp only
    rw [if_pos hg]
  · intro p hp hg
    rw [acquireStep, hp]
    dsimp only
    rw [if_neg (by simp [hg])]
  · intro hp
    rw [acquireStep, hp]
  · intro hg hro hco
    rw [acquireFresh, if_pos hg, hro, hco]
  · intro hg hco
    rw [acquireFresh, if_neg (by simp [hg]), hco]

theorem acquire_behavior_witness :
    c7bWorld.sessionRepoPath = some "/tmp/LabRepo" ∧
      c7bWorld.gitDirExists "/tmp/LabRepo" = true ∧
      acquireStep c7bWorld "LabRepo" = (Except.ok (), [EnqEv.reuse]) :=
  ⟨rfl, rfl, (acquire_behavior c7bWorld "LabRepo").1 "/tmp/LabRepo" rfl rfl⟩
